import Mathlib

set_option exponentiation.threshold 5000
set_option maxRecDepth 40000

/-!
Verification of the approximate floating-point equality engine of the
repository (Catch2 floating-point matchers, `catch_matchers_floating_point.cpp`).

IEEE-754 values are embedded as their raw bit patterns: a binary64 value is a
`Fin (2 ^ 64)`, a binary32 value is a `Fin (2 ^ 32)`.  Numeric comparisons on
non-NaN values are the standard IEEE-754 total order, expressed through the
sign-magnitude key `okey` (negating the magnitude when the sign bit is set);
positive and negative zero both map to key 0, so they compare equal, exactly as
IEEE `==` demands.  The signed 64-bit arithmetic of the C++ source is modelled
on `Int` with an explicit two-complement wrap `wrap64` at every operation, so
overflow behaves as it does on hardware.  Rounding (needed for the `+`, `*`,
`static_cast<float>` and decimal literals used by the matchers) is
round-to-nearest, ties to even, implemented executably on rationals.
-/

/-! ## Binary64 bit-level model -/

def F64 : Type := Fin (2 ^ 64)

instance : DecidableEq F64 := by unfold F64; infer_instance

/-- Build a binary64 bit pattern from a natural number (reduced mod 2^64). -/
def F64.mk' (n : ℕ) : F64 := ⟨n % 2 ^ 64, Nat.mod_lt _ (by norm_num)⟩

/-- Sign bit. -/
def sign64 (x : F64) : ℕ := x.val / 2 ^ 63

/-- Magnitude: the bit pattern with the sign bit cleared. -/
def mag64 (x : F64) : ℕ := x.val % 2 ^ 63

/-- Biased exponent field (11 bits). -/
def expF64 (x : F64) : ℕ := (x.val / 2 ^ 52) % 2 ^ 11

/-- Fraction field (52 bits). -/
def frac64 (x : F64) : ℕ := x.val % 2 ^ 52

/-- IEEE-754 NaN test (`std::isnan` / `Catch::isnan`). -/
def isNan64 (x : F64) : Bool := expF64 x == 2 ^ 11 - 1 && frac64 x != 0

/-- IEEE-754 infinity test (`std::isinf`). -/
def isInf64 (x : F64) : Bool := expF64 x == 2 ^ 11 - 1 && frac64 x == 0

/-- IEEE-754 finiteness test (`std::isfinite`). -/
def isFinite64 (x : F64) : Bool := expF64 x != 2 ^ 11 - 1

/-- Sign-magnitude comparison key: non-NaN binary64 values are totally ordered
by this integer, and two non-NaN values are IEEE-equal iff their keys agree
(both zeros map to 0). -/
def okey64 (x : F64) : ℤ := if sign64 x = 0 then (mag64 x : ℤ) else -(mag64 x : ℤ)

/-- The signed 64-bit integer with the same bit pattern
(`convert` in the source: `memcpy` into an `int64_t`). -/
def toTwos64 (x : F64) : ℤ := if x.val < 2 ^ 63 then (x.val : ℤ) else (x.val : ℤ) - 2 ^ 64

/-- IEEE negation: flip the sign bit (`-x` on a double). -/
def fneg64 (x : F64) : F64 := F64.mk' (x.val + 2 ^ 63)

/-- `std::fabs`: clear the sign bit. -/
def fabs64 (x : F64) : F64 := F64.mk' (mag64 x)

/-- IEEE `<` : false when either operand is NaN, otherwise key comparison. -/
def flt64 (a b : F64) : Bool := !isNan64 a && !isNan64 b && decide (okey64 a < okey64 b)

/-- IEEE `<=`. -/
def fle64 (a b : F64) : Bool := !isNan64 a && !isNan64 b && decide (okey64 a ≤ okey64 b)

/-- IEEE `>=`. -/
def fge64 (a b : F64) : Bool := fle64 b a

/-- IEEE `==` : false when either operand is NaN; `-0.0 == 0.0` holds. -/
def feq64 (a b : F64) : Bool := !isNan64 a && !isNan64 b && decide (okey64 a = okey64 b)

/-- Positive zero `0.0`. -/
def zero64 : F64 := F64.mk' 0

/-- Negative zero `-0.0`. -/
def negZero64 : F64 := F64.mk' (2 ^ 63)

/-- `std::numeric_limits<double>::denorm_min()`, the `EPSILON_0` of the source. -/
def eps64 : F64 := F64.mk' 1

/-- Negative denormal minimum, `-EPSILON_0`. -/
def negEps64 : F64 := F64.mk' (2 ^ 63 + 1)

/-- Positive infinity. -/
def inf64 : F64 := F64.mk' ((2 ^ 11 - 1) * 2 ^ 52)

/-- Negative infinity. -/
def negInf64 : F64 := F64.mk' (2 ^ 63 + (2 ^ 11 - 1) * 2 ^ 52)

/-- A quiet NaN (the canonical NaN produced by arithmetic). -/
def qnan64 : F64 := F64.mk' ((2 ^ 11 - 1) * 2 ^ 52 + 2 ^ 51)

/-! ## Signed 64-bit machine arithmetic -/

/-- Reduce a mathematical integer to the two-complement value of its low 64
bits, i.e. into the interval `[-2^63, 2^63)`.  Every `int64_t` operation of
the C++ source is modelled by the exact operation followed by this wrap. -/
def wrap64 (z : ℤ) : ℤ := (z + 2 ^ 63) % 2 ^ 64 - 2 ^ 63

/-- `std::abs` on `int64_t`: the absolute value, wrapped (so the absolute
value of the minimal `int64_t` is itself, as on hardware). -/
def absI64 (z : ℤ) : ℤ := wrap64 |z|

/-- `static_cast<uint64_t>` of an `int64_t` value. -/
def castU64 (z : ℤ) : ℕ := (z % 2 ^ 64).toNat

/-! ## ulpDistance (binary64 instantiation of the template)

Fuel-indexed translation of the recursive `ulpDistance`; the recursion depth
of the source is bounded by 5, and `ulpDistance64` runs the dispatch with
fuel 9, which is never exhausted (the closed-form theorem below certifies
this, since it is proved by exhausting all reachable cases).
-/

def ulpAux64 : ℕ → F64 → F64 → ℤ
  | 0, _, _ => 0
  | n + 1, a, b =>
    if isNan64 a || isNan64 b then 2 ^ 63 - 1
    else if !isFinite64 a || !isFinite64 b then 2 ^ 63 - 1
    else if flt64 b a then wrap64 (-(ulpAux64 n b a))
    else if feq64 a b then 0
    else if feq64 a zero64 then
      wrap64 (1 + absI64 (ulpAux64 n (if flt64 b zero64 then negEps64 else eps64) b))
    else if feq64 b zero64 then
      wrap64 (1 + absI64 (ulpAux64 n (if flt64 a zero64 then negEps64 else eps64) a))
    else if flt64 a zero64 != flt64 b zero64 then
      wrap64 (wrap64 (2 + absI64 (ulpAux64 n (if flt64 b zero64 then negEps64 else eps64) b))
               + absI64 (ulpAux64 n (if flt64 a zero64 then negEps64 else eps64) a))
    else if flt64 a zero64 then ulpAux64 n (fneg64 b) (fneg64 a)
    else wrap64 (toTwos64 b - toTwos64 a)

/-- `ulpDistance<double>` of the source. -/
def ulpDistance64 (a b : F64) : ℤ := ulpAux64 9 a b

/-- `almostEqualUlps<double>` of the source. -/
def almostEqualUlps64 (lhs rhs : F64) (maxUlpDiff : ℕ) : Bool :=
  if isNan64 lhs || isNan64 rhs then false
  else if !isFinite64 lhs || !isFinite64 rhs then feq64 lhs rhs
  else castU64 (absI64 (ulpDistance64 lhs rhs)) ≤ maxUlpDiff

/-! ## Binary32 bit-level model (the `float` instantiation) -/

def F32 : Type := Fin (2 ^ 32)

instance : DecidableEq F32 := by unfold F32; infer_instance

/-- Build a binary32 bit pattern from a natural number (reduced mod 2^32). -/
def F32.mk' (n : ℕ) : F32 := ⟨n % 2 ^ 32, Nat.mod_lt _ (by norm_num)⟩

/-- Sign bit. -/
def sign32 (x : F32) : ℕ := x.val / 2 ^ 31

/-- Magnitude: the bit pattern with the sign bit cleared. -/
def mag32 (x : F32) : ℕ := x.val % 2 ^ 31

/-- Biased exponent field (8 bits). -/
def expF32 (x : F32) : ℕ := (x.val / 2 ^ 23) % 2 ^ 8

/-- Fraction field (23 bits). -/
def frac32 (x : F32) : ℕ := x.val % 2 ^ 23

/-- IEEE-754 NaN test on binary32. -/
def isNan32 (x : F32) : Bool := expF32 x == 2 ^ 8 - 1 && frac32 x != 0

/-- IEEE-754 infinity test on binary32. -/
def isInf32 (x : F32) : Bool := expF32 x == 2 ^ 8 - 1 && frac32 x == 0

/-- IEEE-754 finiteness test on binary32. -/
def isFinite32 (x : F32) : Bool := expF32 x != 2 ^ 8 - 1

/-- Sign-magnitude comparison key for binary32. -/
def okey32 (x : F32) : ℤ := if sign32 x = 0 then (mag32 x : ℤ) else -(mag32 x : ℤ)

/-- The signed 32-bit integer with the same bit pattern (`convert` for
`float`; its value is then used in 64-bit arithmetic). -/
def toTwos32 (x : F32) : ℤ := if x.val < 2 ^ 31 then (x.val : ℤ) else (x.val : ℤ) - 2 ^ 32

/-- IEEE negation on binary32: flip the sign bit. -/
def fneg32 (x : F32) : F32 := F32.mk' (x.val + 2 ^ 31)

/-- IEEE `<` on binary32. -/
def flt32 (a b : F32) : Bool := !isNan32 a && !isNan32 b && decide (okey32 a < okey32 b)

/-- IEEE `==` on binary32. -/
def feq32 (a b : F32) : Bool := !isNan32 a && !isNan32 b && decide (okey32 a = okey32 b)

/-- Positive zero `0.0f`. -/
def zero32 : F32 := F32.mk' 0

/-- Negative zero `-0.0f`. -/
def negZero32 : F32 := F32.mk' (2 ^ 31)

/-- `std::numeric_limits<float>::denorm_min()`. -/
def eps32 : F32 := F32.mk' 1

/-- Negative denormal minimum for binary32. -/
def negEps32 : F32 := F32.mk' (2 ^ 31 + 1)

/-- Positive infinity (binary32). -/
def inf32 : F32 := F32.mk' ((2 ^ 8 - 1) * 2 ^ 23)

/-- Negative infinity (binary32). -/
def negInf32 : F32 := F32.mk' (2 ^ 31 + (2 ^ 8 - 1) * 2 ^ 23)

/-- A quiet NaN (binary32). -/
def qnan32 : F32 := F32.mk' ((2 ^ 8 - 1) * 2 ^ 23 + 2 ^ 22)

/-- The `float` instantiation of `ulpDistance`; the arithmetic is still
performed on `int64_t`, so it is the same wrapped 64-bit arithmetic. -/
def ulpAux32 : ℕ → F32 → F32 → ℤ
  | 0, _, _ => 0
  | n + 1, a, b =>
    if isNan32 a || isNan32 b then 2 ^ 63 - 1
    else if !isFinite32 a || !isFinite32 b then 2 ^ 63 - 1
    else if flt32 b a then wrap64 (-(ulpAux32 n b a))
    else if feq32 a b then 0
    else if feq32 a zero32 then
      wrap64 (1 + absI64 (ulpAux32 n (if flt32 b zero32 then negEps32 else eps32) b))
    else if feq32 b zero32 then
      wrap64 (1 + absI64 (ulpAux32 n (if flt32 a zero32 then negEps32 else eps32) a))
    else if flt32 a zero32 != flt32 b zero32 then
      wrap64 (wrap64 (2 + absI64 (ulpAux32 n (if flt32 b zero32 then negEps32 else eps32) b))
               + absI64 (ulpAux32 n (if flt32 a zero32 then negEps32 else eps32) a))
    else if flt32 a zero32 then ulpAux32 n (fneg32 b) (fneg32 a)
    else wrap64 (toTwos32 b - toTwos32 a)

/-- `ulpDistance<float>` of the source. -/
def ulpDistance32 (a b : F32) : ℤ := ulpAux32 9 a b

/-- `almostEqualUlps<float>` of the source. -/
def almostEqualUlps32 (lhs rhs : F32) (maxUlpDiff : ℕ) : Bool :=
  if isNan32 lhs || isNan32 rhs then false
  else if !isFinite32 lhs || !isFinite32 rhs then feq32 lhs rhs
  else castU64 (absI64 (ulpDistance32 lhs rhs)) ≤ maxUlpDiff

/-! ## Exact value semantics and round-to-nearest-even

The matchers use double addition, multiplication, `fabs`, `std::max`,
`static_cast<float>` and decimal literals.  These are IEEE-754 operations:
the exact result is computed and rounded to the nearest representable value,
ties to even.  Every finite binary64 value is an integer multiple of
`2 ^ (-1074)` (and every finite binary32 value of `2 ^ (-149)`), so exact
values are carried as scaled integers: `scaledVal64 x` is the exact value of
`x` times `2 ^ 1074`, and sums and products of such scaled integers represent
the exact sum and product with scale `2 ^ 1074` and `2 ^ 2148` respectively.
The rounding of a positive value `n / d` is implemented executably on the
numerator and denominator.
-/

/-- The exact value of a finite binary64 pattern, times `2 ^ 1074`
(a subnormal contributes its fraction directly; a normal value
`(2 ^ 52 + f) * 2 ^ (E - 1075)` contributes `(2 ^ 52 + f) * 2 ^ (E - 1)`). -/
def scaledVal64 (x : F64) : ℤ :=
  (if sign64 x = 1 then (-1 : ℤ) else 1) *
    (if expF64 x = 0 then (frac64 x : ℤ)
     else ((2 ^ 52 + frac64 x) * 2 ^ (expF64 x - 1) : ℕ))

/-- The exact value of a finite binary32 pattern, times `2 ^ 149`. -/
def scaledVal32 (x : F32) : ℤ :=
  (if sign32 x = 1 then (-1 : ℤ) else 1) *
    (if expF32 x = 0 then (frac32 x : ℤ)
     else ((2 ^ 23 + frac32 x) * 2 ^ (expF32 x - 1) : ℕ))

/-- Does `2 ^ e ≤ n / d` hold (as rationals, `n, d ≥ 1`)? -/
def pow2LeRat (e : ℤ) (n d : ℕ) : Bool :=
  if 0 ≤ e then decide (d * 2 ^ e.toNat ≤ n) else decide (d ≤ n * 2 ^ (-e).toNat)

/-- One binary-descent step for the integer base-2 logarithm: if `2 ^ k`
still divides into the remaining value, add `k` to the accumulator. -/
def log2Acc (p : ℕ × ℕ) (k : ℕ) : ℕ × ℕ :=
  if 2 ^ k ≤ p.2 then (p.1 + k, p.2 / 2 ^ k) else p

/-- Floor of the base-2 logarithm of a positive natural number below
`2 ^ 4096`, by binary descent. -/
def natFloorLog2 (n : ℕ) : ℕ :=
  ([2048, 1024, 512, 256, 128, 64, 32, 16, 8, 4, 2, 1].foldl log2Acc (0, n)).1

/-- Floor of the base-2 logarithm of the positive rational `n / d`: the
difference of the bit lengths is off by at most one, and two comparisons
correct it to the exact floor. -/
def ratFloorLog2 (n d : ℕ) : ℤ :=
  let z : ℤ := (natFloorLog2 n : ℤ) - (natFloorLog2 d : ℤ)
  if pow2LeRat (z + 1) n d then z + 1 else if pow2LeRat z n d then z else z - 1

/-- Round `n / d` (with `d ≥ 1`) to the nearest natural number, ties to even. -/
def rheDiv (n d : ℕ) : ℕ :=
  if 2 * (n % d) < d then n / d
  else if 2 * (n % d) > d then n / d + 1
  else if (n / d) % 2 = 0 then n / d else n / d + 1

/-- Magnitude bits of the binary64 value nearest to the positive rational
`n / d` (round to nearest, ties to even); the infinity magnitude on overflow. -/
def roundMag64 (n d : ℕ) : ℕ :=
  let e := ratFloorLog2 n d
  let q : ℤ := if e - 52 ≤ -1074 then -1074 else e - 52
  let m := if 0 ≤ q then rheDiv n (d * 2 ^ q.toNat) else rheDiv (n * 2 ^ (-q).toNat) d
  let m2 := if m = 2 ^ 53 then 2 ^ 52 else m
  let q2 := if m = 2 ^ 53 then q + 1 else q
  if m2 = 0 then 0
  else if q2 > 1023 - 52 then (2 ^ 11 - 1) * 2 ^ 52
  else if m2 < 2 ^ 52 then m2
  else (q2 + 1075).toNat * 2 ^ 52 + (m2 - 2 ^ 52)

/-- Magnitude bits of the binary32 value nearest to the positive rational
`n / d`; the infinity magnitude on overflow. -/
def roundMag32 (n d : ℕ) : ℕ :=
  let e := ratFloorLog2 n d
  let q : ℤ := if e - 23 ≤ -149 then -149 else e - 23
  let m := if 0 ≤ q then rheDiv n (d * 2 ^ q.toNat) else rheDiv (n * 2 ^ (-q).toNat) d
  let m2 := if m = 2 ^ 24 then 2 ^ 23 else m
  let q2 := if m = 2 ^ 24 then q + 1 else q
  if m2 = 0 then 0
  else if q2 > 127 - 23 then (2 ^ 8 - 1) * 2 ^ 23
  else if m2 < 2 ^ 23 then m2
  else (q2 + 150).toNat * 2 ^ 23 + (m2 - 2 ^ 23)

/-- Round the value `v / 2 ^ scl` (with `v` not zero) to the nearest binary64
value, ties to even, taking the sign from `v`. -/
def roundScaled64 (v : ℤ) (scl : ℕ) : F64 :=
  if 0 ≤ v then F64.mk' (roundMag64 v.natAbs (2 ^ scl))
  else F64.mk' (2 ^ 63 + roundMag64 v.natAbs (2 ^ scl))

/-- Round the value `v / 2 ^ scl` (with `v` not zero) to the nearest binary32
value, ties to even, taking the sign from `v`. -/
def roundScaled32 (v : ℤ) (scl : ℕ) : F32 :=
  if 0 ≤ v then F32.mk' (roundMag32 v.natAbs (2 ^ scl))
  else F32.mk' (2 ^ 31 + roundMag32 v.natAbs (2 ^ scl))

/-- The binary64 value nearest to the positive decimal fraction `n / d`
(round to nearest, ties to even) — the value of a C++ decimal literal. -/
def decLit64 (n d : ℕ) : F64 := F64.mk' (roundMag64 n d)

/-- The double constant `1.0`. -/
def one64 : F64 := decLit64 1 1

/-- IEEE-754 binary64 addition (round to nearest, ties to even; an exact
zero sum is `+0.0` unless both operands are `-0.0`). -/
def fadd64 (x y : F64) : F64 :=
  if isNan64 x || isNan64 y then qnan64
  else if isInf64 x && isInf64 y then (if sign64 x = sign64 y then x else qnan64)
  else if isInf64 x then x
  else if isInf64 y then y
  else
    let s := scaledVal64 x + scaledVal64 y
    if s = 0 then (if sign64 x = 1 && sign64 y = 1 then negZero64 else zero64)
    else roundScaled64 s 1074

/-- IEEE-754 binary64 multiplication (round to nearest, ties to even). -/
def fmul64 (x y : F64) : F64 :=
  if isNan64 x || isNan64 y then qnan64
  else if (isInf64 x && mag64 y == 0) || (isInf64 y && mag64 x == 0) then qnan64
  else if isInf64 x || isInf64 y then (if sign64 x = sign64 y then inf64 else negInf64)
  else
    let p := scaledVal64 x * scaledVal64 y
    if p = 0 then (if sign64 x = sign64 y then zero64 else negZero64)
    else roundScaled64 p 2148

/-- `std::max` on doubles: `(a < b) ? b : a`. -/
def fmax64 (a b : F64) : F64 := if flt64 a b then b else a

/-- `static_cast<float>` applied to a double: IEEE narrowing, rounding to the
nearest binary32 value (NaN stays NaN, infinities and zero signs are kept,
finite values that exceed the binary32 range become infinities). -/
def f64toF32 (x : F64) : F32 :=
  if isNan64 x then qnan32
  else if isInf64 x then (if sign64 x = 0 then inf32 else negInf32)
  else if mag64 x = 0 then (if sign64 x = 0 then zero32 else negZero32)
  else roundScaled32 (scaledVal64 x) 1074

/-! ## The matchers -/

/-- `Catch::Matchers::Detail::FloatingPointKind`. -/
inductive FloatingPointKind : Type
  | Float : FloatingPointKind
  | Double : FloatingPointKind

instance : DecidableEq FloatingPointKind := by
  intro a b; cases a <;> cases b <;> first | exact isTrue rfl | exact isFalse (by intro h; cases h)

/-- `marginComparison` of the source: the overflow-safe absolute-margin test
`(lhs + margin >= rhs) && (rhs + margin >= lhs)`. -/
def marginComparison (lhs rhs margin : F64) : Bool :=
  fge64 (fadd64 lhs margin) rhs && fge64 (fadd64 rhs margin) lhs

/-- `WithinAbsMatcher`: the AbsoluteMargin policy. -/
structure WithinAbsMatcher : Type where
  target : F64
  margin : F64
  deriving DecidableEq

/-- The `WithinAbsMatcher` constructor; `CATCH_ENFORCE(margin >= 0, ...)`
models as returning `none` exactly when the enforce fires. -/
def mkWithinAbsMatcher (target margin : F64) : Option WithinAbsMatcher :=
  if fge64 margin zero64 then some ⟨target, margin⟩ else none

/-- `WithinAbsMatcher::match` (named `matchOn` because `match` is reserved). -/
def WithinAbsMatcher.matchOn (m : WithinAbsMatcher) (matchee : F64) : Bool :=
  fge64 (fadd64 matchee m.margin) m.target && fge64 (fadd64 m.target m.margin) matchee

/-- `WithinUlpsMatcher`: the UlpTolerance policy (`m_ulps` is a `uint64_t`,
modelled as a natural number; the constructor bound keeps it in range). -/
structure WithinUlpsMatcher : Type where
  target : F64
  ulps : ℕ
  kind : FloatingPointKind
  deriving DecidableEq

/-- The `WithinUlpsMatcher` constructor with its
`CATCH_ENFORCE(m_type == Double || m_ulps <= UINT32_MAX, ...)`. -/
def mkWithinUlpsMatcher (target : F64) (ulps : ℕ) (kind : FloatingPointKind) :
    Option WithinUlpsMatcher :=
  if kind = FloatingPointKind.Double ∨ ulps ≤ 2 ^ 32 - 1 then some ⟨target, ulps, kind⟩ else none

/-- `WithinUlpsMatcher::match`: dispatch on the width; the `Float` case first
narrows both the matchee and the target with `static_cast<float>`. -/
def WithinUlpsMatcher.matchOn (m : WithinUlpsMatcher) (matchee : F64) : Bool :=
  match m.kind with
  | FloatingPointKind.Float => almostEqualUlps32 (f64toF32 matchee) (f64toF32 m.target) m.ulps
  | FloatingPointKind.Double => almostEqualUlps64 matchee m.target m.ulps

/-- `WithinRelMatcher`: the RelativeMargin policy. -/
structure WithinRelMatcher : Type where
  target : F64
  epsilon : F64
  deriving DecidableEq

/-- The `WithinRelMatcher` constructor with its two enforces
(`epsilon >= 0` and `epsilon < 1`). -/
def mkWithinRelMatcher (target epsilon : F64) : Option WithinRelMatcher :=
  if fge64 epsilon zero64 && flt64 epsilon one64 then some ⟨target, epsilon⟩ else none

/-- `WithinRelMatcher::match`: margin `epsilon * max(|matchee|, |target|)`,
with an infinite margin replaced by `0`, then `marginComparison`. -/
def WithinRelMatcher.matchOn (m : WithinRelMatcher) (matchee : F64) : Bool :=
  let relMargin := fmul64 m.epsilon (fmax64 (fabs64 matchee) (fabs64 m.target))
  marginComparison matchee m.target (if isInf64 relMargin then zero64 else relMargin)

/-! ## Bit-level facts about the binary64 model -/

theorem finite64_iff_mag (x : F64) : isFinite64 x = true ↔ mag64 x < 2047 * 2 ^ 52 := by
  have h := x.isLt
  simp only [isFinite64, bne_iff_ne, ne_eq, expF64, mag64]
  omega

theorem nan64_iff_mag (x : F64) : isNan64 x = true ↔ 2047 * 2 ^ 52 < mag64 x := by
  have h := x.isLt
  simp only [isNan64, Bool.and_eq_true, beq_iff_eq, bne_iff_ne, ne_eq, expF64, frac64, mag64]
  omega

theorem inf64_iff_mag (x : F64) : isInf64 x = true ↔ mag64 x = 2047 * 2 ^ 52 := by
  have h := x.isLt
  simp only [isInf64, Bool.and_eq_true, beq_iff_eq, expF64, frac64, mag64]
  omega

theorem notNan64_of_mag (x : F64) (h : mag64 x < 2047 * 2 ^ 52) : isNan64 x = false := by
  cases hb : isNan64 x
  · rfl
  · exact absurd ((nan64_iff_mag x).1 hb) (by omega)

theorem finite64_of_mag (x : F64) (h : mag64 x < 2047 * 2 ^ 52) : isFinite64 x = true :=
  (finite64_iff_mag x).2 h

theorem sign64_cases (x : F64) : sign64 x = 0 ∨ sign64 x = 1 := by
  have h := x.isLt
  simp only [sign64]
  omega

theorem okey64_natAbs (x : F64) : (okey64 x).natAbs = mag64 x := by
  simp only [okey64]
  split <;> omega

theorem sign64_of_okey_pos (x : F64) (h : 0 < okey64 x) : sign64 x = 0 := by
  simp only [okey64] at h
  split at h
  · assumption
  · omega

theorem sign64_of_okey_neg (x : F64) (h : okey64 x < 0) : sign64 x = 1 := by
  simp only [okey64] at h
  split at h
  · omega
  · rcases sign64_cases x with h0 | h1 <;> omega

theorem toTwos64_eq_okey (x : F64) (h : sign64 x = 0) : toTwos64 x = okey64 x := by
  have hl := x.isLt
  have hv : x.val < 2 ^ 63 := by simp only [sign64] at h; omega
  simp only [toTwos64, okey64, h, if_pos, if_true, mag64]
  rw [if_pos hv]
  omega

theorem fneg64_val (x : F64) : (fneg64 x).val = (x.val + 2 ^ 63) % 2 ^ 64 := rfl

theorem fneg64_mag (x : F64) : mag64 (fneg64 x) = mag64 x := by
  have h := x.isLt
  simp only [mag64, fneg64_val]
  omega

theorem fneg64_sign (x : F64) : sign64 (fneg64 x) = 1 - sign64 x := by
  have h := x.isLt
  simp only [sign64, fneg64_val]
  omega

theorem okey64_fneg (x : F64) : okey64 (fneg64 x) = -okey64 x := by
  have hm := fneg64_mag x
  have hs := fneg64_sign x
  rcases sign64_cases x with h0 | h1
  · rw [h0] at hs
    simp only [okey64, hs, h0, hm]
    norm_num
  · rw [h1] at hs
    simp only [okey64, hs, h1, hm]
    norm_num

theorem okey64_zero : okey64 zero64 = 0 := by decide

theorem okey64_eps : okey64 eps64 = 1 := by decide

theorem okey64_negEps : okey64 negEps64 = -1 := by decide

theorem mag64_eps_lt : mag64 eps64 < 2047 * 2 ^ 52 := by decide

theorem mag64_negEps_lt : mag64 negEps64 < 2047 * 2 ^ 52 := by decide

theorem isNan64_zero : isNan64 zero64 = false := by decide

theorem fneg64_negEps : fneg64 negEps64 = eps64 := by decide

/-! ## One dispatch step of ulpDistance, rephrased on comparison keys -/

theorem ulpAux64_step (n : ℕ) (a b : F64)
    (ha : mag64 a < 2047 * 2 ^ 52) (hb : mag64 b < 2047 * 2 ^ 52) :
    ulpAux64 (n + 1) a b =
      if okey64 b < okey64 a then wrap64 (-(ulpAux64 n b a))
      else if okey64 a = okey64 b then 0
      else if okey64 a = 0 then
        wrap64 (1 + absI64 (ulpAux64 n (if okey64 b < 0 then negEps64 else eps64) b))
      else if okey64 b = 0 then
        wrap64 (1 + absI64 (ulpAux64 n (if okey64 a < 0 then negEps64 else eps64) a))
      else if ¬(okey64 a < 0 ↔ okey64 b < 0) then
        wrap64 (wrap64 (2 + absI64 (ulpAux64 n (if okey64 b < 0 then negEps64 else eps64) b))
                 + absI64 (ulpAux64 n (if okey64 a < 0 then negEps64 else eps64) a))
      else if okey64 a < 0 then ulpAux64 n (fneg64 b) (fneg64 a)
      else wrap64 (okey64 b - okey64 a) := by
  have hna : isNan64 a = false := notNan64_of_mag a ha
  have hnb : isNan64 b = false := notNan64_of_mag b hb
  have hfa : isFinite64 a = true := finite64_of_mag a ha
  have hfb : isFinite64 b = true := finite64_of_mag b hb
  have eba : flt64 b a = decide (okey64 b < okey64 a) := by simp [flt64, hna, hnb]
  have eab : feq64 a b = decide (okey64 a = okey64 b) := by simp [feq64, hna, hnb]
  have ea0 : feq64 a zero64 = decide (okey64 a = 0) := by
    simp [feq64, hna, isNan64_zero, okey64_zero]
  have eb0 : feq64 b zero64 = decide (okey64 b = 0) := by
    simp [feq64, hnb, isNan64_zero, okey64_zero]
  have la0 : flt64 a zero64 = decide (okey64 a < 0) := by
    simp [flt64, hna, isNan64_zero, okey64_zero]
  have lb0 : flt64 b zero64 = decide (okey64 b < 0) := by
    simp [flt64, hnb, isNan64_zero, okey64_zero]
  simp only [ulpAux64, hna, hnb, hfa, hfb, eba, eab, ea0, eb0, la0, lb0, Bool.or_false,
    Bool.false_or, Bool.not_true, Bool.not_false, Bool.and_false, Bool.false_and,
    Bool.and_true, Bool.true_and, Bool.false_eq_true, if_false, decide_eq_true_eq,
    bne_iff_ne, ne_eq, decide_eq_decide]
  split_ifs <;> try rfl
  have hsa : sign64 a = 0 := sign64_of_okey_pos a (by omega)
  have hsb : sign64 b = 0 := sign64_of_okey_pos b (by omega)
  rw [toTwos64_eq_okey a hsa, toTwos64_eq_okey b hsb]

/-! ## Closed form of ulpDistance on finite binary64 operands -/

theorem ulp64_core (n : ℕ) (a b : F64)
    (ha : mag64 a < 2047 * 2 ^ 52) (hb : mag64 b < 2047 * 2 ^ 52)
    (h0 : 0 < okey64 a) (hab : okey64 a ≤ okey64 b) :
    ulpAux64 (n + 1) a b = wrap64 (okey64 b - okey64 a) := by
  rw [ulpAux64_step n a b ha hb]
  rw [if_neg (by omega : ¬ okey64 b < okey64 a)]
  by_cases he : okey64 a = okey64 b
  · rw [if_pos he]
    simp only [wrap64]
    omega
  · rw [if_neg he, if_neg (by omega : ¬ okey64 a = 0), if_neg (by omega : ¬ okey64 b = 0),
      if_neg (not_not_intro (by constructor <;> (intro h; omega)) :
        ¬¬(okey64 a < 0 ↔ okey64 b < 0)),
      if_neg (by omega : ¬ okey64 a < 0)]

theorem ulp64_eps (n : ℕ) (b : F64) (hb : mag64 b < 2047 * 2 ^ 52) (h0 : 0 < okey64 b) :
    ulpAux64 (n + 1) eps64 b = wrap64 (okey64 b - 1) := by
  have h := ulp64_core n eps64 b mag64_eps_lt hb (by rw [okey64_eps]; omega)
    (by rw [okey64_eps]; omega)
  rwa [okey64_eps] at h

theorem ulp64_negeps (n : ℕ) (a : F64) (ha : mag64 a < 2047 * 2 ^ 52) (h0 : okey64 a < 0) :
    ulpAux64 (n + 3) negEps64 a = wrap64 (okey64 a + 1) := by
  have habs := okey64_natAbs a
  by_cases he : okey64 a = -1
  · have h := ulpAux64_step (n + 2) negEps64 a mag64_negEps_lt ha
    rw [okey64_negEps] at h
    rw [h, if_neg (by omega : ¬ okey64 a < -1), if_pos (by omega : (-1 : ℤ) = okey64 a)]
    simp only [wrap64]
    omega
  · have houter := ulpAux64_step (n + 2) negEps64 a mag64_negEps_lt ha
    rw [okey64_negEps] at houter
    rw [houter, if_pos (by omega : okey64 a < -1)]
    have hinner := ulpAux64_step (n + 1) a negEps64 ha mag64_negEps_lt
    rw [okey64_negEps] at hinner
    rw [hinner, if_neg (by omega : ¬ (-1 : ℤ) < okey64 a), if_neg (by omega : ¬ okey64 a = -1),
      if_neg (by omega : ¬ okey64 a = 0), if_neg (by omega : ¬ (-1 : ℤ) = 0),
      if_neg (not_not_intro (by constructor <;> (intro h; omega)) :
        ¬¬(okey64 a < 0 ↔ (-1 : ℤ) < 0)),
      if_pos h0, fneg64_negEps]
    have hcore := ulp64_eps n (fneg64 a) (by rw [fneg64_mag]; exact ha)
      (by rw [okey64_fneg]; omega)
    rw [hcore, okey64_fneg]
    simp only [wrap64]
    omega

theorem wrap64_id (z : ℤ) (h1 : -(2 ^ 63) ≤ z) (h2 : z < 2 ^ 63) : wrap64 z = z := by
  simp only [wrap64]
  omega

theorem absI64_eq (z : ℤ) (h : z.natAbs < 2 ^ 63) : absI64 z = (z.natAbs : ℤ) := by
  simp only [absI64, wrap64, Int.abs_eq_natAbs]
  omega

theorem ulp64_sorted (n : ℕ) (a b : F64)
    (ha : mag64 a < 2047 * 2 ^ 52) (hb : mag64 b < 2047 * 2 ^ 52)
    (hab : okey64 a ≤ okey64 b) :
    ulpAux64 (n + 4) a b = wrap64 (okey64 b - okey64 a) := by
  have habsa := okey64_natAbs a
  have habsb := okey64_natAbs b
  rw [ulpAux64_step (n + 3) a b ha hb, if_neg (by omega : ¬ okey64 b < okey64 a)]
  by_cases he : okey64 a = okey64 b
  · rw [if_pos he]
    simp only [wrap64]
    omega
  rw [if_neg he]
  by_cases hza : okey64 a = 0
  · rw [if_pos hza, if_neg (by omega : ¬ okey64 b < 0)]
    rw [ulp64_eps (n + 2) b hb (by omega)]
    rw [wrap64_id (okey64 b - 1) (by omega) (by omega)]
    rw [absI64_eq (okey64 b - 1) (by omega)]
    have harg : 1 + (((okey64 b - 1).natAbs : ℤ)) = okey64 b - okey64 a := by omega
    rw [harg]
  rw [if_neg hza]
  by_cases hzb : okey64 b = 0
  · rw [if_pos hzb, if_pos (by omega : okey64 a < 0)]
    rw [ulp64_negeps n a ha (by omega)]
    rw [wrap64_id (okey64 a + 1) (by omega) (by omega)]
    rw [absI64_eq (okey64 a + 1) (by omega)]
    have harg : 1 + (((okey64 a + 1).natAbs : ℤ)) = okey64 b - okey64 a := by omega
    rw [harg]
  rw [if_neg hzb]
  by_cases hmix : okey64 a < 0 ∧ 0 < okey64 b
  · rw [if_pos (by intro h; omega : ¬(okey64 a < 0 ↔ okey64 b < 0)),
      if_neg (by omega : ¬ okey64 b < 0), if_pos (by omega : okey64 a < 0)]
    rw [ulp64_eps (n + 2) b hb (by omega), ulp64_negeps n a ha (by omega)]
    rw [wrap64_id (okey64 b - 1) (by omega) (by omega)]
    rw [absI64_eq (okey64 b - 1) (by omega)]
    rw [wrap64_id (okey64 a + 1) (by omega) (by omega)]
    rw [absI64_eq (okey64 a + 1) (by omega)]
    rw [wrap64_id (2 + (((okey64 b - 1).natAbs : ℤ))) (by omega) (by omega)]
    have harg : 2 + (((okey64 b - 1).natAbs : ℤ)) + (((okey64 a + 1).natAbs : ℤ))
        = okey64 b - okey64 a := by omega
    rw [harg]
  · have hsame : okey64 a < 0 ↔ okey64 b < 0 := by constructor <;> (intro h; omega)
    rw [if_neg (not_not_intro hsame)]
    by_cases hneg : okey64 a < 0
    · rw [if_pos hneg]
      have h := ulp64_core (n + 2) (fneg64 b) (fneg64 a)
        (by rw [fneg64_mag]; exact hb) (by rw [fneg64_mag]; exact ha)
        (by rw [okey64_fneg]; omega) (by rw [okey64_fneg, okey64_fneg]; omega)
      rw [h, okey64_fneg, okey64_fneg]
      have harg : -okey64 a - -okey64 b = okey64 b - okey64 a := by ring
      rw [harg]
    · rw [if_neg hneg]

theorem ulp64_closed (a b : F64) (ha : isFinite64 a = true) (hb : isFinite64 b = true) :
    ulpDistance64 a b = wrap64 (okey64 b - okey64 a) := by
  have ha' := (finite64_iff_mag a).1 ha
  have hb' := (finite64_iff_mag b).1 hb
  by_cases h : okey64 b < okey64 a
  · have hstep := ulpAux64_step 8 a b ha' hb'
    rw [if_pos h] at hstep
    have hrec : ulpAux64 8 b a = wrap64 (okey64 a - okey64 b) :=
      ulp64_sorted 4 b a hb' ha' (by omega)
    show ulpAux64 9 a b = wrap64 (okey64 b - okey64 a)
    rw [hstep, hrec]
    simp only [wrap64]
    omega
  · exact ulp64_sorted 5 a b ha' hb' (by omega)

theorem ulpAux64_range (n : ℕ) : ∀ a b : F64,
    -(2 ^ 63) ≤ ulpAux64 n a b ∧ ulpAux64 n a b < 2 ^ 63 := by
  induction n with
  | zero => intro a b; simp only [ulpAux64]; omega
  | succ n ih =>
    intro a b
    simp only [ulpAux64]
    split_ifs
    all_goals first
      | exact ih _ _
      | omega
      | (simp only [wrap64]; omega)

/-! ## Bit-level facts about the binary32 model -/

theorem finite32_iff_mag (x : F32) : isFinite32 x = true ↔ mag32 x < 255 * 2 ^ 23 := by
  have h := x.isLt
  simp only [isFinite32, bne_iff_ne, ne_eq, expF32, mag32]
  omega

theorem nan32_iff_mag (x : F32) : isNan32 x = true ↔ 255 * 2 ^ 23 < mag32 x := by
  have h := x.isLt
  simp only [isNan32, Bool.and_eq_true, beq_iff_eq, bne_iff_ne, ne_eq, expF32, frac32, mag32]
  omega

theorem inf32_iff_mag (x : F32) : isInf32 x = true ↔ mag32 x = 255 * 2 ^ 23 := by
  have h := x.isLt
  simp only [isInf32, Bool.and_eq_true, beq_iff_eq, expF32, frac32, mag32]
  omega

theorem notNan32_of_mag (x : F32) (h : mag32 x < 255 * 2 ^ 23) : isNan32 x = false := by
  cases hb : isNan32 x
  · rfl
  · exact absurd ((nan32_iff_mag x).1 hb) (by omega)

theorem finite32_of_mag (x : F32) (h : mag32 x < 255 * 2 ^ 23) : isFinite32 x = true :=
  (finite32_iff_mag x).2 h

theorem sign32_cases (x : F32) : sign32 x = 0 ∨ sign32 x = 1 := by
  have h := x.isLt
  simp only [sign32]
  omega

theorem okey32_natAbs (x : F32) : (okey32 x).natAbs = mag32 x := by
  simp only [okey32]
  split <;> omega

theorem sign32_of_okey_pos (x : F32) (h : 0 < okey32 x) : sign32 x = 0 := by
  simp only [okey32] at h
  split at h
  · assumption
  · omega

theorem toTwos32_eq_okey (x : F32) (h : sign32 x = 0) : toTwos32 x = okey32 x := by
  have hl := x.isLt
  have hv : x.val < 2 ^ 31 := by simp only [sign32] at h; omega
  simp only [toTwos32, okey32, h, if_pos, if_true, mag32]
  rw [if_pos hv]
  omega

theorem fneg32_val (x : F32) : (fneg32 x).val = (x.val + 2 ^ 31) % 2 ^ 32 := rfl

theorem fneg32_mag (x : F32) : mag32 (fneg32 x) = mag32 x := by
  have h := x.isLt
  simp only [mag32, fneg32_val]
  omega

theorem fneg32_sign (x : F32) : sign32 (fneg32 x) = 1 - sign32 x := by
  have h := x.isLt
  simp only [sign32, fneg32_val]
  omega

theorem okey32_fneg (x : F32) : okey32 (fneg32 x) = -okey32 x := by
  have hm := fneg32_mag x
  have hs := fneg32_sign x
  rcases sign32_cases x with h0 | h1
  · rw [h0] at hs
    simp only [okey32, hs, h0, hm]
    norm_num
  · rw [h1] at hs
    simp only [okey32, hs, h1, hm]
    norm_num

theorem okey32_zero : okey32 zero32 = 0 := by decide

theorem okey32_eps : okey32 eps32 = 1 := by decide

theorem okey32_negEps : okey32 negEps32 = -1 := by decide

theorem mag32_eps_lt : mag32 eps32 < 255 * 2 ^ 23 := by decide

theorem mag32_negEps_lt : mag32 negEps32 < 255 * 2 ^ 23 := by decide

theorem isNan32_zero : isNan32 zero32 = false := by decide

theorem fneg32_negEps : fneg32 negEps32 = eps32 := by decide

theorem ulpAux32_step (n : ℕ) (a b : F32)
    (ha : mag32 a < 255 * 2 ^ 23) (hb : mag32 b < 255 * 2 ^ 23) :
    ulpAux32 (n + 1) a b =
      if okey32 b < okey32 a then wrap64 (-(ulpAux32 n b a))
      else if okey32 a = okey32 b then 0
      else if okey32 a = 0 then
        wrap64 (1 + absI64 (ulpAux32 n (if okey32 b < 0 then negEps32 else eps32) b))
      else if okey32 b = 0 then
        wrap64 (1 + absI64 (ulpAux32 n (if okey32 a < 0 then negEps32 else eps32) a))
      else if ¬(okey32 a < 0 ↔ okey32 b < 0) then
        wrap64 (wrap64 (2 + absI64 (ulpAux32 n (if okey32 b < 0 then negEps32 else eps32) b))
                 + absI64 (ulpAux32 n (if okey32 a < 0 then negEps32 else eps32) a))
      else if okey32 a < 0 then ulpAux32 n (fneg32 b) (fneg32 a)
      else wrap64 (okey32 b - okey32 a) := by
  have hna : isNan32 a = false := notNan32_of_mag a ha
  have hnb : isNan32 b = false := notNan32_of_mag b hb
  have hfa : isFinite32 a = true := finite32_of_mag a ha
  have hfb : isFinite32 b = true := finite32_of_mag b hb
  have eba : flt32 b a = decide (okey32 b < okey32 a) := by simp [flt32, hna, hnb]
  have eab : feq32 a b = decide (okey32 a = okey32 b) := by simp [feq32, hna, hnb]
  have ea0 : feq32 a zero32 = decide (okey32 a = 0) := by
    simp [feq32, hna, isNan32_zero, okey32_zero]
  have eb0 : feq32 b zero32 = decide (okey32 b = 0) := by
    simp [feq32, hnb, isNan32_zero, okey32_zero]
  have la0 : flt32 a zero32 = decide (okey32 a < 0) := by
    simp [flt32, hna, isNan32_zero, okey32_zero]
  have lb0 : flt32 b zero32 = decide (okey32 b < 0) := by
    simp [flt32, hnb, isNan32_zero, okey32_zero]
  simp only [ulpAux32, hna, hnb, hfa, hfb, eba, eab, ea0, eb0, la0, lb0, Bool.or_false,
    Bool.false_or, Bool.not_true, Bool.not_false, Bool.and_false, Bool.false_and,
    Bool.and_true, Bool.true_and, Bool.false_eq_true, if_false, decide_eq_true_eq,
    bne_iff_ne, ne_eq, decide_eq_decide]
  split_ifs <;> try rfl
  have hsa : sign32 a = 0 := sign32_of_okey_pos a (by omega)
  have hsb : sign32 b = 0 := sign32_of_okey_pos b (by omega)
  rw [toTwos32_eq_okey a hsa, toTwos32_eq_okey b hsb]

theorem ulp32_core (n : ℕ) (a b : F32)
    (ha : mag32 a < 255 * 2 ^ 23) (hb : mag32 b < 255 * 2 ^ 23)
    (h0 : 0 < okey32 a) (hab : okey32 a ≤ okey32 b) :
    ulpAux32 (n + 1) a b = wrap64 (okey32 b - okey32 a) := by
  rw [ulpAux32_step n a b ha hb]
  rw [if_neg (by omega : ¬ okey32 b < okey32 a)]
  by_cases he : okey32 a = okey32 b
  · rw [if_pos he]
    simp only [wrap64]
    omega
  · rw [if_neg he, if_neg (by omega : ¬ okey32 a = 0), if_neg (by omega : ¬ okey32 b = 0),
      if_neg (not_not_intro (by constructor <;> (intro h; omega)) :
        ¬¬(okey32 a < 0 ↔ okey32 b < 0)),
      if_neg (by omega : ¬ okey32 a < 0)]

theorem ulp32_eps (n : ℕ) (b : F32) (hb : mag32 b < 255 * 2 ^ 23) (h0 : 0 < okey32 b) :
    ulpAux32 (n + 1) eps32 b = wrap64 (okey32 b - 1) := by
  have h := ulp32_core n eps32 b mag32_eps_lt hb (by rw [okey32_eps]; omega)
    (by rw [okey32_eps]; omega)
  rwa [okey32_eps] at h

theorem ulp32_negeps (n : ℕ) (a : F32) (ha : mag32 a < 255 * 2 ^ 23) (h0 : okey32 a < 0) :
    ulpAux32 (n + 3) negEps32 a = wrap64 (okey32 a + 1) := by
  have habs := okey32_natAbs a
  by_cases he : okey32 a = -1
  · have h := ulpAux32_step (n + 2) negEps32 a mag32_negEps_lt ha
    rw [okey32_negEps] at h
    rw [h, if_neg (by omega : ¬ okey32 a < -1), if_pos (by omega : (-1 : ℤ) = okey32 a)]
    simp only [wrap64]
    omega
  · have houter := ulpAux32_step (n + 2) negEps32 a mag32_negEps_lt ha
    rw [okey32_negEps] at houter
    rw [houter, if_pos (by omega : okey32 a < -1)]
    have hinner := ulpAux32_step (n + 1) a negEps32 ha mag32_negEps_lt
    rw [okey32_negEps] at hinner
    rw [hinner, if_neg (by omega : ¬ (-1 : ℤ) < okey32 a), if_neg (by omega : ¬ okey32 a = -1),
      if_neg (by omega : ¬ okey32 a = 0), if_neg (by omega : ¬ (-1 : ℤ) = 0),
      if_neg (not_not_intro (by constructor <;> (intro h; omega)) :
        ¬¬(okey32 a < 0 ↔ (-1 : ℤ) < 0)),
      if_pos h0, fneg32_negEps]
    have hcore := ulp32_eps n (fneg32 a) (by rw [fneg32_mag]; exact ha)
      (by rw [okey32_fneg]; omega)
    rw [hcore, okey32_fneg]
    simp only [wrap64]
    omega

theorem ulp32_sorted (n : ℕ) (a b : F32)
    (ha : mag32 a < 255 * 2 ^ 23) (hb : mag32 b < 255 * 2 ^ 23)
    (hab : okey32 a ≤ okey32 b) :
    ulpAux32 (n + 4) a b = wrap64 (okey32 b - okey32 a) := by
  have habsa := okey32_natAbs a
  have habsb := okey32_natAbs b
  rw [ulpAux32_step (n + 3) a b ha hb, if_neg (by omega : ¬ okey32 b < okey32 a)]
  by_cases he : okey32 a = okey32 b
  · rw [if_pos he]
    simp only [wrap64]
    omega
  rw [if_neg he]
  by_cases hza : okey32 a = 0
  · rw [if_pos hza, if_neg (by omega : ¬ okey32 b < 0)]
    rw [ulp32_eps (n + 2) b hb (by omega)]
    rw [wrap64_id (okey32 b - 1) (by omega) (by omega)]
    rw [absI64_eq (okey32 b - 1) (by omega)]
    have harg : 1 + (((okey32 b - 1).natAbs : ℤ)) = okey32 b - okey32 a := by omega
    rw [harg]
  rw [if_neg hza]
  by_cases hzb : okey32 b = 0
  · rw [if_pos hzb, if_pos (by omega : okey32 a < 0)]
    rw [ulp32_negeps n a ha (by omega)]
    rw [wrap64_id (okey32 a + 1) (by omega) (by omega)]
    rw [absI64_eq (okey32 a + 1) (by omega)]
    have harg : 1 + (((okey32 a + 1).natAbs : ℤ)) = okey32 b - okey32 a := by omega
    rw [harg]
  rw [if_neg hzb]
  by_cases hmix : okey32 a < 0 ∧ 0 < okey32 b
  · rw [if_pos (by intro h; omega : ¬(okey32 a < 0 ↔ okey32 b < 0)),
      if_neg (by omega : ¬ okey32 b < 0), if_pos (by omega : okey32 a < 0)]
    rw [ulp32_eps (n + 2) b hb (by omega), ulp32_negeps n a ha (by omega)]
    rw [wrap64_id (okey32 b - 1) (by omega) (by omega)]
    rw [absI64_eq (okey32 b - 1) (by omega)]
    rw [wrap64_id (okey32 a + 1) (by omega) (by omega)]
    rw [absI64_eq (okey32 a + 1) (by omega)]
    rw [wrap64_id (2 + (((okey32 b - 1).natAbs : ℤ))) (by omega) (by omega)]
    have harg : 2 + (((okey32 b - 1).natAbs : ℤ)) + (((okey32 a + 1).natAbs : ℤ))
        = okey32 b - okey32 a := by omega
    rw [harg]
  · have hsame : okey32 a < 0 ↔ okey32 b < 0 := by constructor <;> (intro h; omega)
    rw [if_neg (not_not_intro hsame)]
    by_cases hneg : okey32 a < 0
    · rw [if_pos hneg]
      have h := ulp32_core (n + 2) (fneg32 b) (fneg32 a)
        (by rw [fneg32_mag]; exact hb) (by rw [fneg32_mag]; exact ha)
        (by rw [okey32_fneg]; omega) (by rw [okey32_fneg, okey32_fneg]; omega)
      rw [h, okey32_fneg, okey32_fneg]
      have harg : -okey32 a - -okey32 b = okey32 b - okey32 a := by ring
      rw [harg]
    · rw [if_neg hneg]

theorem ulp32_closed (a b : F32) (ha : isFinite32 a = true) (hb : isFinite32 b = true) :
    ulpDistance32 a b = wrap64 (okey32 b - okey32 a) := by
  have ha' := (finite32_iff_mag a).1 ha
  have hb' := (finite32_iff_mag b).1 hb
  by_cases h : okey32 b < okey32 a
  · have hstep := ulpAux32_step 8 a b ha' hb'
    rw [if_pos h] at hstep
    have hrec : ulpAux32 8 b a = wrap64 (okey32 a - okey32 b) :=
      ulp32_sorted 4 b a hb' ha' (by omega)
    show ulpAux32 9 a b = wrap64 (okey32 b - okey32 a)
    rw [hstep, hrec]
    simp only [wrap64]
    omega
  · exact ulp32_sorted 5 a b ha' hb' (by omega)

theorem ulpAux32_range (n : ℕ) : ∀ a b : F32,
    -(2 ^ 63) ≤ ulpAux32 n a b ∧ ulpAux32 n a b < 2 ^ 63 := by
  induction n with
  | zero => intro a b; simp only [ulpAux32]; omega
  | succ n ih =>
    intro a b
    simp only [ulpAux32]
    split_ifs
    all_goals first
      | exact ih _ _
      | omega
      | (simp only [wrap64]; omega)

/-! ## Helper facts for the matcher theorems -/

theorem castU64_absI64 (z : ℤ) (h1 : -(2 ^ 63) ≤ z) (h2 : z < 2 ^ 63) :
    castU64 (absI64 z) = z.natAbs := by
  simp only [castU64, absI64, wrap64, Int.abs_eq_natAbs]
  omega

theorem val64_decomp (x : F64) : x.val = sign64 x * 2 ^ 63 + mag64 x := by
  simp only [sign64, mag64]
  omega

theorem eq64_of_okey (a b : F64) (h : okey64 a = okey64 b) (hnz : okey64 a ≠ 0) : a = b := by
  have ha := okey64_natAbs a
  have hb := okey64_natAbs b
  have hva := val64_decomp a
  have hvb := val64_decomp b
  have hmag : mag64 a = mag64 b := by omega
  apply Fin.ext
  by_cases hpos : 0 < okey64 a
  · have hsa := sign64_of_okey_pos a hpos
    have hsb := sign64_of_okey_pos b (by omega)
    omega
  · have hsa := sign64_of_okey_neg a (by omega)
    have hsb := sign64_of_okey_neg b (by omega)
    omega

theorem inf64_mag_of (x : F64) (hn : isNan64 x = false) (hf : isFinite64 x = false) :
    mag64 x = 2047 * 2 ^ 52 := by
  have h1 : ¬ mag64 x < 2047 * 2 ^ 52 := fun hc => by simp [finite64_of_mag x hc] at hf
  have h2 : ¬ 2047 * 2 ^ 52 < mag64 x := fun hc => by simp [(nan64_iff_mag x).2 hc] at hn
  omega

theorem eq64_of_feq_nonfinite (a b : F64) (hna : isNan64 a = false) (hnb : isNan64 b = false)
    (hnf : isFinite64 a = false ∨ isFinite64 b = false) (hfq : feq64 a b = true) : a = b := by
  have hk : okey64 a = okey64 b := by
    simp only [feq64, hna, hnb, Bool.not_false, Bool.true_and, decide_eq_true_eq] at hfq
    exact hfq
  have ha := okey64_natAbs a
  have hb := okey64_natAbs b
  rcases hnf with hf | hf
  · exact eq64_of_okey a b hk (by have := inf64_mag_of a hna hf; omega)
  · exact eq64_of_okey a b hk (by have := inf64_mag_of b hnb hf; omega)

theorem feq64_refl (a : F64) (hna : isNan64 a = false) : feq64 a a = true := by
  simp [feq64, hna]

theorem val32_decomp (x : F32) : x.val = sign32 x * 2 ^ 31 + mag32 x := by
  simp only [sign32, mag32]
  omega

theorem sign32_of_okey_neg (x : F32) (h : okey32 x < 0) : sign32 x = 1 := by
  simp only [okey32] at h
  split at h
  · omega
  · rcases sign32_cases x with h0 | h1 <;> omega

theorem eq32_of_okey (a b : F32) (h : okey32 a = okey32 b) (hnz : okey32 a ≠ 0) : a = b := by
  have ha := okey32_natAbs a
  have hb := okey32_natAbs b
  have hva := val32_decomp a
  have hvb := val32_decomp b
  have hmag : mag32 a = mag32 b := by omega
  apply Fin.ext
  by_cases hpos : 0 < okey32 a
  · have hsa := sign32_of_okey_pos a hpos
    have hsb := sign32_of_okey_pos b (by omega)
    omega
  · have hsa := sign32_of_okey_neg a (by omega)
    have hsb := sign32_of_okey_neg b (by omega)
    omega

theorem inf32_mag_of (x : F32) (hn : isNan32 x = false) (hf : isFinite32 x = false) :
    mag32 x = 255 * 2 ^ 23 := by
  have h1 : ¬ mag32 x < 255 * 2 ^ 23 := fun hc => by simp [finite32_of_mag x hc] at hf
  have h2 : ¬ 255 * 2 ^ 23 < mag32 x := fun hc => by simp [(nan32_iff_mag x).2 hc] at hn
  omega

theorem eq32_of_feq_nonfinite (a b : F32) (hna : isNan32 a = false) (hnb : isNan32 b = false)
    (hnf : isFinite32 a = false ∨ isFinite32 b = false) (hfq : feq32 a b = true) : a = b := by
  have hk : okey32 a = okey32 b := by
    simp only [feq32, hna, hnb, Bool.not_false, Bool.true_and, decide_eq_true_eq] at hfq
    exact hfq
  have ha := okey32_natAbs a
  have hb := okey32_natAbs b
  rcases hnf with hf | hf
  · exact eq32_of_okey a b hk (by have := inf32_mag_of a hna hf; omega)
  · exact eq32_of_okey a b hk (by have := inf32_mag_of b hnb hf; omega)

theorem feq32_refl (a : F32) (hna : isNan32 a = false) : feq32 a a = true := by
  simp [feq32, hna]

theorem f64toF32_nan (x : F64) (h : isNan64 x = true) : isNan32 (f64toF32 x) = true := by
  simp only [f64toF32, h, if_true]
  decide

theorem fadd64_nan_left (x y : F64) (h : isNan64 x = true) : fadd64 x y = qnan64 := by
  simp [fadd64, h]

theorem isNan64_qnan : isNan64 qnan64 = true := by decide

theorem fge64_nan_right (a b : F64) (h : isNan64 b = true) : fge64 a b = false := by
  simp [fge64, fle64, h]

theorem fge64_nan_left (a b : F64) (h : isNan64 a = true) : fge64 a b = false := by
  simp [fge64, fle64, h]

theorem fabs64_val (x : F64) : (fabs64 x).val = mag64 x := by
  have h : mag64 x < 2 ^ 63 := by simp only [mag64]; omega
  show mag64 x % 2 ^ 64 = mag64 x
  omega

theorem fabs64_mag (x : F64) : mag64 (fabs64 x) = mag64 x := by
  have h : mag64 x < 2 ^ 63 := by simp only [mag64]; omega
  simp only [mag64, fabs64_val]
  omega

theorem fabs64_sign (x : F64) : sign64 (fabs64 x) = 0 := by
  have h : mag64 x < 2 ^ 63 := by simp only [mag64]; omega
  simp only [sign64, fabs64_val]
  omega

theorem isNan64_fabs (x : F64) : isNan64 (fabs64 x) = isNan64 x := by
  have hm := fabs64_mag x
  cases hb : isNan64 x
  · cases hb2 : isNan64 (fabs64 x)
    · rfl
    · have h1 := (nan64_iff_mag (fabs64 x)).1 hb2
      exact absurd ((nan64_iff_mag x).2 (by omega)) (by simp [hb])
  · exact (nan64_iff_mag (fabs64 x)).2 (by have := (nan64_iff_mag x).1 hb; omega)

theorem eq64_of_okey_sign0 (a b : F64) (hsa : sign64 a = 0) (hsb : sign64 b = 0)
    (h : okey64 a = okey64 b) : a = b := by
  simp only [okey64, hsa, hsb, if_pos] at h
  have hva := val64_decomp a
  have hvb := val64_decomp b
  apply Fin.ext
  omega

theorem fmax64_comm_nonNan (a b : F64) (hna : isNan64 a = false) (hnb : isNan64 b = false)
    (hsa : sign64 a = 0) (hsb : sign64 b = 0) : fmax64 a b = fmax64 b a := by
  have eab : flt64 a b = decide (okey64 a < okey64 b) := by simp [flt64, hna, hnb]
  have eba : flt64 b a = decide (okey64 b < okey64 a) := by simp [flt64, hna, hnb]
  simp only [fmax64, eab, eba, decide_eq_true_eq]
  by_cases h1 : okey64 a < okey64 b
  · rw [if_pos h1, if_neg (by omega : ¬ okey64 b < okey64 a)]
  · by_cases h2 : okey64 b < okey64 a
    · rw [if_neg h1, if_pos h2]
    · have he : a = b := eq64_of_okey_sign0 a b hsa hsb (by omega)
      rw [he]

/-! ## Claim theorems for the ULP distance -/

/-- C3: equality implies zero distance, including signed zero: for every
finite value of either width, `ulpDistance a a = 0`, and the signed-zero
pairs have distance 0 in both directions at both widths. -/
theorem claim_C3_ulpDistance_self :
    (∀ a : F64, isFinite64 a = true → ulpDistance64 a a = 0) ∧
    (∀ a : F32, isFinite32 a = true → ulpDistance32 a a = 0) ∧
    ulpDistance64 negZero64 zero64 = 0 ∧ ulpDistance64 zero64 negZero64 = 0 ∧
    ulpDistance32 negZero32 zero32 = 0 ∧ ulpDistance32 zero32 negZero32 = 0 :=
  ⟨fun a ha => by rw [ulp64_closed a a ha ha]; simp only [wrap64]; omega,
   fun a ha => by rw [ulp32_closed a a ha ha]; simp only [wrap64]; omega,
   by decide, by decide, by decide, by decide⟩

/-- Witness for C3 at the concrete finite value `1.0`. -/
theorem claim_C3_witness :
    isFinite64 (F64.mk' 4607182418800017408) = true ∧
    ulpDistance64 (F64.mk' 4607182418800017408) (F64.mk' 4607182418800017408) = 0 :=
  ⟨by decide, claim_C3_ulpDistance_self.1 (F64.mk' 4607182418800017408) (by decide)⟩

/-- C2 counterexample: the finite pair `a = -0x1.0000000000001p-1022` (bits
`2^63 + 2^52 + 1`) and `b = DBL_MAX` (bits `2^63 - 2^52 - 1`) has an exact
ULP distance of exactly `2^63`, which overflows `int64_t`; both call
directions return the wrapped value `-2^63`, so
`ulpDistance(a, b) = -ulpDistance(b, a)` fails on this finite pair. -/
theorem claim_C2_cex :
    isFinite64 (F64.mk' (2 ^ 63 + 2 ^ 52 + 1)) = true ∧
    isFinite64 (F64.mk' (2 ^ 63 - 2 ^ 52 - 1)) = true ∧
    ¬(ulpDistance64 (F64.mk' (2 ^ 63 + 2 ^ 52 + 1)) (F64.mk' (2 ^ 63 - 2 ^ 52 - 1)) =
        -(ulpDistance64 (F64.mk' (2 ^ 63 - 2 ^ 52 - 1)) (F64.mk' (2 ^ 63 + 2 ^ 52 + 1)))) := by
  decide

/-- C2 amended: antisymmetry `ulpDistance a b = -ulpDistance b a` holds for
all finite binary32 pairs, and for all finite binary64 pairs except those
whose computed distance is the non-negatable value `-2^63` (reached only when
the exact distance is exactly `2^63`, as in the counterexample). -/
theorem claim_C2_antisym :
    (∀ a b : F32, isFinite32 a = true → isFinite32 b = true →
        ulpDistance32 a b = -(ulpDistance32 b a)) ∧
    (∀ a b : F64, isFinite64 a = true → isFinite64 b = true →
        ulpDistance64 b a ≠ -(2 ^ 63) → ulpDistance64 a b = -(ulpDistance64 b a)) := by
  constructor
  · intro a b ha hb
    rw [ulp32_closed a b ha hb, ulp32_closed b a hb ha]
    have h1 := okey32_natAbs a
    have h2 := okey32_natAbs b
    have h3 := (finite32_iff_mag a).1 ha
    have h4 := (finite32_iff_mag b).1 hb
    simp only [wrap64]
    omega
  · intro a b ha hb hne
    rw [ulp64_closed b a hb ha] at hne
    rw [ulp64_closed a b ha hb, ulp64_closed b a hb ha]
    simp only [wrap64] at hne ⊢
    omega

/-- Witness for C2 at the concrete finite binary32 pair `(denorm_min, 0.0f)`. -/
theorem claim_C2_witness :
    isFinite32 eps32 = true ∧ isFinite32 zero32 = true ∧
    ulpDistance32 eps32 zero32 = -(ulpDistance32 zero32 eps32) :=
  ⟨by decide, by decide, claim_C2_antisym.1 eps32 zero32 (by decide) (by decide)⟩

/-- C7 counterexample: for the finite pair `a = -DBL_MAX`, `b = DBL_MAX` the
exact ULP distance is `2^64 - 2^53 - 2`, outside the signed 64-bit range;
the sign-crossing sum overflows and the code returns the wrapped, negative
value `-(2^53 + 2)` even though `a < b` demands a positive distance, so the
result differs from the exact mathematical value `okey64 b - okey64 a`. -/
theorem claim_C7_cex :
    isFinite64 (F64.mk' (2 ^ 64 - 2 ^ 52 - 1)) = true ∧
    isFinite64 (F64.mk' (2 ^ 63 - 2 ^ 52 - 1)) = true ∧
    flt64 (F64.mk' (2 ^ 64 - 2 ^ 52 - 1)) (F64.mk' (2 ^ 63 - 2 ^ 52 - 1)) = true ∧
    ulpDistance64 (F64.mk' (2 ^ 64 - 2 ^ 52 - 1)) (F64.mk' (2 ^ 63 - 2 ^ 52 - 1)) =
      -(2 ^ 53 + 2) ∧
    ¬(ulpDistance64 (F64.mk' (2 ^ 64 - 2 ^ 52 - 1)) (F64.mk' (2 ^ 63 - 2 ^ 52 - 1)) =
        okey64 (F64.mk' (2 ^ 63 - 2 ^ 52 - 1)) - okey64 (F64.mk' (2 ^ 64 - 2 ^ 52 - 1))) := by
  decide

/-- C7 amended: the 64-bit arithmetic of `ulpDistance` is exact (no
overflow) for every finite binary32 pair, and for every finite binary64 pair
whose exact ULP distance (the difference of the sign-magnitude keys, i.e. the
number of representable steps between the operands) has magnitude below
`2^63`; huge opposite-sign binary64 pairs overflow, as in the
counterexample. -/
theorem claim_C7_exactness :
    (∀ a b : F32, isFinite32 a = true → isFinite32 b = true →
        ulpDistance32 a b = okey32 b - okey32 a) ∧
    (∀ a b : F64, isFinite64 a = true → isFinite64 b = true →
        (okey64 b - okey64 a).natAbs < 2 ^ 63 →
        ulpDistance64 a b = okey64 b - okey64 a) := by
  constructor
  · intro a b ha hb
    rw [ulp32_closed a b ha hb]
    have h1 := okey32_natAbs a
    have h2 := okey32_natAbs b
    have h3 := (finite32_iff_mag a).1 ha
    have h4 := (finite32_iff_mag b).1 hb
    simp only [wrap64]
    omega
  · intro a b ha hb hrange
    rw [ulp64_closed a b ha hb]
    simp only [wrap64]
    omega

/-- Witness for C7 at the concrete pair `(1.0, nextafter(1.0, INFINITY))`. -/
theorem claim_C7_witness :
    isFinite64 (F64.mk' 4607182418800017408) = true ∧
    isFinite64 (F64.mk' 4607182418800017409) = true ∧
    (okey64 (F64.mk' 4607182418800017409) - okey64 (F64.mk' 4607182418800017408)).natAbs
      < 2 ^ 63 ∧
    ulpDistance64 (F64.mk' 4607182418800017408) (F64.mk' 4607182418800017409) =
      okey64 (F64.mk' 4607182418800017409) - okey64 (F64.mk' 4607182418800017408) :=
  ⟨by decide, by decide, by decide,
   claim_C7_exactness.2 (F64.mk' 4607182418800017408) (F64.mk' 4607182418800017409)
     (by decide) (by decide) (by decide)⟩

/-! ## Claim theorem for the UlpTolerance matcher -/

/-- C1: UlpTolerance match semantics, for every target, ulps tolerance and
width.  A NaN candidate or target always yields false.  At width Double the
compared inputs are the stored doubles; at width Single they are their
single-precision narrowings (the `static_cast<float>` the source applies).
If either compared input is non-finite but not NaN, the match holds iff the
two compared inputs are bit-identical; if both are finite, the match holds
iff the magnitude of their `ulpDistance` is at most `ulps`. -/
theorem claim_C1_ulpMatcher_match (t : F64) (u : ℕ) (k : FloatingPointKind)
    (p : WithinUlpsMatcher) (h : mkWithinUlpsMatcher t u k = some p) (c : F64) :
    ((isNan64 c || isNan64 t) = true → p.matchOn c = false) ∧
    (k = FloatingPointKind.Double →
      (((isNan64 c || isNan64 t) = false → (!isFinite64 c || !isFinite64 t) = true →
          (p.matchOn c = true ↔ c = t)) ∧
       ((isFinite64 c && isFinite64 t) = true →
          (p.matchOn c = true ↔ (ulpDistance64 c t).natAbs ≤ u)))) ∧
    (k = FloatingPointKind.Float →
      (((isNan32 (f64toF32 c) || isNan32 (f64toF32 t)) = false →
          (!isFinite32 (f64toF32 c) || !isFinite32 (f64toF32 t)) = true →
          (p.matchOn c = true ↔ f64toF32 c = f64toF32 t)) ∧
       ((isFinite32 (f64toF32 c) && isFinite32 (f64toF32 t)) = true →
          (p.matchOn c = true ↔ (ulpDistance32 (f64toF32 c) (f64toF32 t)).natAbs ≤ u)))) := by
  have hp : p = ⟨t, u, k⟩ := by
    unfold mkWithinUlpsMatcher at h
    split at h
    · exact (Option.some.inj h).symm
    · exact absurd h (by simp)
  subst hp
  cases k with
  | Double =>
    have hm : WithinUlpsMatcher.matchOn ⟨t, u, FloatingPointKind.Double⟩ c
        = almostEqualUlps64 c t u := rfl
    refine ⟨?_, fun _ => ⟨?_, ?_⟩, fun hk => FloatingPointKind.noConfusion hk⟩
    · intro hnn
      rw [hm]
      simp [almostEqualUlps64, hnn]
    · intro hnn hnf
      rw [hm]
      have hred : almostEqualUlps64 c t u = feq64 c t := by
        simp [almostEqualUlps64, hnn, hnf]
      rw [hred]
      have hnct : isNan64 c = false ∧ isNan64 t = false := by
        constructor <;> (revert hnn; cases isNan64 c <;> cases isNan64 t <;> simp)
      have hor : isFinite64 c = false ∨ isFinite64 t = false := by
        revert hnf
        cases hc : isFinite64 c <;> cases ht : isFinite64 t <;> simp
      constructor
      · exact fun hfq => eq64_of_feq_nonfinite c t hnct.1 hnct.2 hor hfq
      · intro he
        rw [he]
        exact feq64_refl t hnct.2
    · intro hfin
      rw [hm]
      rw [Bool.and_eq_true] at hfin
      obtain ⟨hfc, hft⟩ := hfin
      have hnc : isNan64 c = false := notNan64_of_mag c ((finite64_iff_mag c).1 hfc)
      have hnt : isNan64 t = false := notNan64_of_mag t ((finite64_iff_mag t).1 hft)
      have hrange := ulpAux64_range 9 c t
      have hcast := castU64_absI64 (ulpDistance64 c t) hrange.1 hrange.2
      simp [almostEqualUlps64, hnc, hnt, hfc, hft, hcast]
  | Float =>
    have hm : WithinUlpsMatcher.matchOn ⟨t, u, FloatingPointKind.Float⟩ c
        = almostEqualUlps32 (f64toF32 c) (f64toF32 t) u := rfl
    refine ⟨?_, fun hk => FloatingPointKind.noConfusion hk, fun _ => ⟨?_, ?_⟩⟩
    · intro hnn
      rw [hm]
      have hnn32 : (isNan32 (f64toF32 c) || isNan32 (f64toF32 t)) = true := by
        rw [Bool.or_eq_true] at hnn
        rcases hnn with hx | hx
        · rw [f64toF32_nan c hx]
          rfl
        · rw [f64toF32_nan t hx]
          simp
      simp [almostEqualUlps32, hnn32]
    · intro hnn hnf
      rw [hm]
      have hred : almostEqualUlps32 (f64toF32 c) (f64toF32 t) u
          = feq32 (f64toF32 c) (f64toF32 t) := by
        simp [almostEqualUlps32, hnn, hnf]
      rw [hred]
      have hnct : isNan32 (f64toF32 c) = false ∧ isNan32 (f64toF32 t) = false := by
        constructor <;>
          (revert hnn; cases isNan32 (f64toF32 c) <;> cases isNan32 (f64toF32 t) <;> simp)
      have hor : isFinite32 (f64toF32 c) = false ∨ isFinite32 (f64toF32 t) = false := by
        revert hnf
        cases hc : isFinite32 (f64toF32 c) <;> cases ht : isFinite32 (f64toF32 t) <;> simp
      constructor
      · exact fun hfq => eq32_of_feq_nonfinite _ _ hnct.1 hnct.2 hor hfq
      · intro he
        rw [he]
        exact feq32_refl _ hnct.2
    · intro hfin
      rw [hm]
      rw [Bool.and_eq_true] at hfin
      obtain ⟨hfc, hft⟩ := hfin
      have hnc : isNan32 (f64toF32 c) = false :=
        notNan32_of_mag _ ((finite32_iff_mag _).1 hfc)
      have hnt : isNan32 (f64toF32 t) = false :=
        notNan32_of_mag _ ((finite32_iff_mag _).1 hft)
      have hrange := ulpAux32_range 9 (f64toF32 c) (f64toF32 t)
      have hcast := castU64_absI64 (ulpDistance32 (f64toF32 c) (f64toF32 t)) hrange.1 hrange.2
      simp [almostEqualUlps32, hnc, hnt, hfc, hft, hcast]

/-- Witness for C1: a NaN candidate is rejected by a `UlpTolerance(0.0, 5)`
policy at width Double. -/
theorem claim_C1_witness :
    WithinUlpsMatcher.matchOn ⟨zero64, 5, FloatingPointKind.Double⟩ qnan64 = false :=
  (claim_C1_ulpMatcher_match zero64 5 FloatingPointKind.Double
      ⟨zero64, 5, FloatingPointKind.Double⟩ rfl qnan64).1 (by decide)

/-! ## Claim theorems for the margin matchers -/

/-- C5: AbsoluteMargin match is `candidate + margin >= target AND
target + margin >= candidate` for every validly constructed policy, the
addition-based form stays correct at infinity
(`AbsoluteMargin(INFINITY, 1.0).match(INFINITY)` is true), and
`AbsoluteMargin(10.0, 0.05)` accepts `10.04` and rejects `10.06`. -/
theorem claim_C5_absMatcher :
    (∀ t m : F64, ∀ p : WithinAbsMatcher, mkWithinAbsMatcher t m = some p → ∀ c : F64,
        p.matchOn c = (fge64 (fadd64 c m) t && fge64 (fadd64 t m) c)) ∧
    (∃ p : WithinAbsMatcher, mkWithinAbsMatcher inf64 one64 = some p ∧
        p.matchOn inf64 = true) ∧
    (∃ p : WithinAbsMatcher, mkWithinAbsMatcher (decLit64 10 1) (decLit64 5 100) = some p ∧
        p.matchOn (decLit64 1004 100) = true ∧ p.matchOn (decLit64 1006 100) = false) := by
  refine ⟨?_, ⟨⟨inf64, one64⟩, by decide, by decide⟩,
    ⟨⟨decLit64 10 1, decLit64 5 100⟩, by decide, by decide, by decide⟩⟩
  intro t m p h c
  have hp : p = ⟨t, m⟩ := by
    unfold mkWithinAbsMatcher at h
    split at h
    · exact (Option.some.inj h).symm
    · exact absurd h (by simp)
  subst hp
  rfl

/-- Witness for C5: the general form applied to the concrete policy
`AbsoluteMargin(0.0, 1.0)` and candidate `0.0`. -/
theorem claim_C5_witness :
    WithinAbsMatcher.matchOn ⟨zero64, one64⟩ zero64 =
      (fge64 (fadd64 zero64 one64) zero64 && fge64 (fadd64 zero64 one64) zero64) :=
  claim_C5_absMatcher.1 zero64 one64 ⟨zero64, one64⟩ (by decide) zero64

/-- C4: RelativeMargin match computes the margin
`epsilon * max(|candidate|, |target|)`, replaces an infinite margin by zero,
and applies the absolute-margin test; `RelativeMargin(100.0, 0.1)` accepts
`105.0` and rejects `115.0`. -/
theorem claim_C4_relMatcher :
    (∀ t e : F64, ∀ p : WithinRelMatcher, mkWithinRelMatcher t e = some p → ∀ c : F64,
        p.matchOn c =
          marginComparison c t
            (if isInf64 (fmul64 e (fmax64 (fabs64 c) (fabs64 t))) then zero64
             else fmul64 e (fmax64 (fabs64 c) (fabs64 t)))) ∧
    (∃ p : WithinRelMatcher, mkWithinRelMatcher (decLit64 100 1) (decLit64 1 10) = some p ∧
        p.matchOn (decLit64 105 1) = true ∧ p.matchOn (decLit64 115 1) = false) := by
  refine ⟨?_, ⟨⟨decLit64 100 1, decLit64 1 10⟩, by decide, by decide, by decide⟩⟩
  intro t e p h c
  have hp : p = ⟨t, e⟩ := by
    unfold mkWithinRelMatcher at h
    split at h
    · exact (Option.some.inj h).symm
    · exact absurd h (by simp)
  subst hp
  rfl

/-- Witness for C4: the general form applied to the concrete policy
`RelativeMargin(100.0, 0.1)` and candidate `105.0`. -/
theorem claim_C4_witness :
    WithinRelMatcher.matchOn ⟨decLit64 100 1, decLit64 1 10⟩ (decLit64 105 1) =
      marginComparison (decLit64 105 1) (decLit64 100 1)
        (if isInf64 (fmul64 (decLit64 1 10)
              (fmax64 (fabs64 (decLit64 105 1)) (fabs64 (decLit64 100 1)))) then zero64
         else fmul64 (decLit64 1 10)
              (fmax64 (fabs64 (decLit64 105 1)) (fabs64 (decLit64 100 1)))) :=
  claim_C4_relMatcher.1 (decLit64 100 1) (decLit64 1 10)
    ⟨decLit64 100 1, decLit64 1 10⟩ (by decide) (decLit64 105 1)

/-- C9: NaN absorbs to false in the margin matchers: for every validly
constructed AbsoluteMargin or RelativeMargin policy, a NaN candidate never
matches, and a policy whose target is NaN matches no candidate. -/
theorem claim_C9_nan_margin :
    (∀ t m : F64, ∀ p : WithinAbsMatcher, mkWithinAbsMatcher t m = some p →
      (∀ c, isNan64 c = true → p.matchOn c = false) ∧
      (isNan64 t = true → ∀ c, p.matchOn c = false)) ∧
    (∀ t e : F64, ∀ p : WithinRelMatcher, mkWithinRelMatcher t e = some p →
      (∀ c, isNan64 c = true → p.matchOn c = false) ∧
      (isNan64 t = true → ∀ c, p.matchOn c = false)) := by
  constructor
  · intro t m p h
    have hp : p = ⟨t, m⟩ := by
      unfold mkWithinAbsMatcher at h
      split at h
      · exact (Option.some.inj h).symm
      · exact absurd h (by simp)
    subst hp
    constructor
    · intro c hc
      have h1 : fadd64 c m = qnan64 := fadd64_nan_left c m hc
      show (fge64 (fadd64 c m) t && fge64 (fadd64 t m) c) = false
      rw [h1, fge64_nan_left _ _ isNan64_qnan, Bool.false_and]
    · intro ht c
      show (fge64 (fadd64 c m) t && fge64 (fadd64 t m) c) = false
      rw [fge64_nan_right _ _ ht, Bool.false_and]
  · intro t e p h
    have hp : p = ⟨t, e⟩ := by
      unfold mkWithinRelMatcher at h
      split at h
      · exact (Option.some.inj h).symm
      · exact absurd h (by simp)
    subst hp
    constructor
    · intro c hc
      have h1 : ∀ mrg, fadd64 c mrg = qnan64 := fun mrg => fadd64_nan_left c mrg hc
      show marginComparison c t _ = false
      rw [marginComparison, h1, fge64_nan_left _ _ isNan64_qnan, Bool.false_and]
    · intro ht c
      show marginComparison c t _ = false
      rw [marginComparison, fge64_nan_right _ _ ht, Bool.false_and]

/-- Witness for C9: `AbsoluteMargin(1.0, 1.0)` rejects a NaN candidate. -/
theorem claim_C9_witness :
    WithinAbsMatcher.matchOn ⟨one64, one64⟩ qnan64 = false :=
  ((claim_C9_nan_margin.1 one64 one64 ⟨one64, one64⟩ (by decide)).1) qnan64 (by decide)

/-- The first conjunct of `marginComparison` is false whenever the right
operand is NaN. -/
theorem marginComparison_nan_right (l r m : F64) (h : isNan64 r = true) :
    marginComparison l r m = false := by
  rw [marginComparison, fge64_nan_right _ _ h, Bool.false_and]

/-- The first conjunct of `marginComparison` is false whenever the left
operand is NaN (its sum with the margin is NaN). -/
theorem marginComparison_nan_left (l r m : F64) (h : isNan64 l = true) :
    marginComparison l r m = false := by
  rw [marginComparison, fadd64_nan_left l m h, fge64_nan_left _ _ isNan64_qnan, Bool.false_and]

/-- C10: symmetry of the relative comparison in target and candidate: for
every epsilon accepted by the constructor and all doubles x and y,
`RelativeMargin(x, eps).match(y) = RelativeMargin(y, eps).match(x)`,
because the margin uses `max(|candidate|, |target|)` and the final margin
test is symmetric (NaN operands make both sides false). -/
theorem claim_C10_rel_symmetry :
    ∀ e x y : F64, ∀ p q : WithinRelMatcher,
      mkWithinRelMatcher x e = some p → mkWithinRelMatcher y e = some q →
      p.matchOn y = q.matchOn x := by
  intro e x y p q hp hq
  have hp' : p = ⟨x, e⟩ := by
    unfold mkWithinRelMatcher at hp
    split at hp
    · exact (Option.some.inj hp).symm
    · exact absurd hp (by simp)
  have hq' : q = ⟨y, e⟩ := by
    unfold mkWithinRelMatcher at hq
    split at hq
    · exact (Option.some.inj hq).symm
    · exact absurd hq (by simp)
  subst hp'
  subst hq'
  by_cases hnx : isNan64 x = true
  · have l : WithinRelMatcher.matchOn ⟨x, e⟩ y = false := marginComparison_nan_right y x _ hnx
    have r : WithinRelMatcher.matchOn ⟨y, e⟩ x = false := marginComparison_nan_left x y _ hnx
    rw [l, r]
  · by_cases hny : isNan64 y = true
    · have l : WithinRelMatcher.matchOn ⟨x, e⟩ y = false := marginComparison_nan_left y x _ hny
      have r : WithinRelMatcher.matchOn ⟨y, e⟩ x = false := marginComparison_nan_right x y _ hny
      rw [l, r]
    · have hnx' : isNan64 x = false := by revert hnx; cases isNan64 x <;> simp
      have hny' : isNan64 y = false := by revert hny; cases isNan64 y <;> simp
      have hmax : fmax64 (fabs64 y) (fabs64 x) = fmax64 (fabs64 x) (fabs64 y) :=
        fmax64_comm_nonNan _ _ (by rw [isNan64_fabs]; exact hny')
          (by rw [isNan64_fabs]; exact hnx') (fabs64_sign y) (fabs64_sign x)
      show marginComparison y x _ = marginComparison x y _
      rw [hmax, marginComparison, marginComparison, Bool.and_comm]

/-- Witness for C10 at the concrete policies built from `x = 1.0`,
`y = 0.0`, `eps = 0.1`. -/
theorem claim_C10_witness :
    WithinRelMatcher.matchOn ⟨one64, decLit64 1 10⟩ zero64 =
      WithinRelMatcher.matchOn ⟨zero64, decLit64 1 10⟩ one64 :=
  claim_C10_rel_symmetry (decLit64 1 10) one64 zero64
    ⟨one64, decLit64 1 10⟩ ⟨zero64, decLit64 1 10⟩ (by decide) (by decide)

/-! ## Claim theorems for construction-time validation -/

theorem isNan64_one : isNan64 one64 = false := by decide

theorem fge64_zero_iff (m : F64) : fge64 m zero64 = true ↔
    (isNan64 m = false ∧ 0 ≤ okey64 m) := by
  simp [fge64, fle64, isNan64_zero, okey64_zero]

theorem flt64_zero_iff (m : F64) : flt64 m zero64 = true ↔
    (isNan64 m = false ∧ okey64 m < 0) := by
  simp [flt64, isNan64_zero, okey64_zero]

theorem flt64_one_iff (e : F64) : flt64 e one64 = true ↔
    (isNan64 e = false ∧ okey64 e < okey64 one64) := by
  simp [flt64, isNan64_one]

theorem fge64_one_iff (e : F64) : fge64 e one64 = true ↔
    (isNan64 e = false ∧ okey64 one64 ≤ okey64 e) := by
  simp [fge64, fle64, isNan64_one]

/-- C6 counterexample: an AbsoluteMargin construction with a NaN margin
fails (the enforce `margin >= 0` fires), yet `margin < 0` is false for NaN,
so "construction fails iff margin < 0" does not hold as stated. -/
theorem claim_C6_cex :
    mkWithinAbsMatcher zero64 qnan64 = none ∧ flt64 qnan64 zero64 = false := by
  decide

/-- C6 amended: construction fails exactly when the enforced conditions
fail as IEEE comparisons, which rejects NaN parameters as well:
AbsoluteMargin fails iff the margin is NaN or negative; RelativeMargin
fails iff epsilon is NaN, negative, or at least 1; UlpTolerance fails iff
the width is Single and ulps exceeds the 32-bit maximum.  Every successful
construction stores exactly the given parameters, epsilon `1.0` and `-0.1`
are rejected and epsilon `0.0` is accepted. -/
theorem claim_C6_validation :
    (∀ t m : F64, mkWithinAbsMatcher t m = none ↔
        (isNan64 m = true ∨ flt64 m zero64 = true)) ∧
    (∀ t m : F64, ∀ p : WithinAbsMatcher, mkWithinAbsMatcher t m = some p →
        p.target = t ∧ p.margin = m) ∧
    (∀ t e : F64, mkWithinRelMatcher t e = none ↔
        (isNan64 e = true ∨ flt64 e zero64 = true ∨ fge64 e one64 = true)) ∧
    (∀ t e : F64, ∀ p : WithinRelMatcher, mkWithinRelMatcher t e = some p →
        p.target = t ∧ p.epsilon = e) ∧
    (∀ t : F64, ∀ u : ℕ, ∀ k : FloatingPointKind, mkWithinUlpsMatcher t u k = none ↔
        (k = FloatingPointKind.Float ∧ 2 ^ 32 - 1 < u)) ∧
    (∀ t : F64, ∀ u : ℕ, ∀ k : FloatingPointKind, ∀ p : WithinUlpsMatcher,
        mkWithinUlpsMatcher t u k = some p → p.target = t ∧ p.ulps = u ∧ p.kind = k) ∧
    mkWithinRelMatcher zero64 one64 = none ∧
    mkWithinRelMatcher zero64 (fneg64 (decLit64 1 10)) = none ∧
    mkWithinRelMatcher zero64 zero64 = some ⟨zero64, zero64⟩ := by
  refine ⟨?_, ?_, ?_, ?_, ?_, ?_, by decide, by decide, by decide⟩
  · intro t m
    unfold mkWithinAbsMatcher
    split
    next h =>
      refine iff_of_false (fun habs => Option.noConfusion habs) ?_
      rcases (fge64_zero_iff m).1 h with ⟨h1, h2⟩
      rintro (hn | hlt)
      · exact absurd hn (by simp [h1])
      · rcases (flt64_zero_iff m).1 hlt with ⟨_, h3⟩
        omega
    next h =>
      refine iff_of_true rfl ?_
      by_cases hn : isNan64 m = true
      · exact Or.inl hn
      · have hn' : isNan64 m = false := by revert hn; cases isNan64 m <;> simp
        refine Or.inr ((flt64_zero_iff m).2 ⟨hn', ?_⟩)
        by_contra hge
        exact h ((fge64_zero_iff m).2 ⟨hn', by omega⟩)
  · intro t m p h
    unfold mkWithinAbsMatcher at h
    split at h
    · rw [← Option.some.inj h]
      exact ⟨rfl, rfl⟩
    · exact absurd h (by simp)
  · intro t e
    unfold mkWithinRelMatcher
    split
    next h =>
      rw [Bool.and_eq_true] at h
      rcases (fge64_zero_iff e).1 h.1 with ⟨h1, h2⟩
      rcases (flt64_one_iff e).1 h.2 with ⟨_, h3⟩
      refine iff_of_false (fun habs => Option.noConfusion habs) ?_
      rintro (hn | hlt | hge)
      · exact absurd hn (by simp [h1])
      · rcases (flt64_zero_iff e).1 hlt with ⟨_, h4⟩
        omega
      · rcases (fge64_one_iff e).1 hge with ⟨_, h4⟩
        omega
    next h =>
      refine iff_of_true rfl ?_
      by_cases hn : isNan64 e = true
      · exact Or.inl hn
      · have hn' : isNan64 e = false := by revert hn; cases isNan64 e <;> simp
        have h' : ¬(fge64 e zero64 = true ∧ flt64 e one64 = true) := by
          intro hc
          exact h (by rw [Bool.and_eq_true]; exact hc)
        by_cases hneg : okey64 e < 0
        · exact Or.inr (Or.inl ((flt64_zero_iff e).2 ⟨hn', hneg⟩))
        · refine Or.inr (Or.inr ((fge64_one_iff e).2 ⟨hn', ?_⟩))
          by_contra hlt
          exact h' ⟨(fge64_zero_iff e).2 ⟨hn', by omega⟩, (flt64_one_iff e).2 ⟨hn', by omega⟩⟩
  · intro t e p h
    unfold mkWithinRelMatcher at h
    split at h
    · rw [← Option.some.inj h]
      exact ⟨rfl, rfl⟩
    · exact absurd h (by simp)
  · intro t u k
    unfold mkWithinUlpsMatcher
    split
    next h =>
      refine iff_of_false (fun habs => Option.noConfusion habs) ?_
      rintro ⟨hk, hu⟩
      rcases h with hd | hle
      · rw [hk] at hd
        exact FloatingPointKind.noConfusion hd
      · omega
    next h =>
      push_neg at h
      refine iff_of_true rfl ⟨?_, by omega⟩
      cases k
      · rfl
      · exact absurd rfl h.1
  · intro t u k p h
    unfold mkWithinUlpsMatcher at h
    split at h
    · rw [← Option.some.inj h]
      exact ⟨rfl, rfl, rfl⟩
    · exact absurd h (by simp)

/-- Witness for C6: a successful construction stores its parameters. -/
theorem claim_C6_witness :
    WithinAbsMatcher.target ⟨one64, zero64⟩ = one64 ∧
    WithinAbsMatcher.margin ⟨one64, zero64⟩ = zero64 :=
  claim_C6_validation.2.1 one64 zero64 ⟨one64, zero64⟩ (by decide)

/-! ## The describe() pipeline: nextafter stepping and scientific rendering

`WithinUlpsMatcher::describe` prints the tolerance interval obtained by
stepping `ulps` next-representable values away from the target in both
directions (`step`, built on `std::nextafter`), rendering each number with
`std::scientific << std::setprecision(max_digits10 - 1)`, i.e. 17
significant decimal digits for a double and 9 for a float.
-/

/-- The non-NaN binary64 value with the given comparison key. -/
def ofOkey64 (k : ℤ) : F64 :=
  if 0 ≤ k then F64.mk' k.toNat else F64.mk' (2 ^ 63 + (-k).toNat)

/-- `std::nextafter` on binary64: NaN propagates, `x == y` returns `y`, and
otherwise the key moves one representable step toward `y` (crossing zero and
reaching or leaving infinity behave as IEEE-754 nextafter). -/
def nextafter64 (x y : F64) : F64 :=
  if isNan64 x || isNan64 y then qnan64
  else if feq64 x y then y
  else if okey64 x < okey64 y then ofOkey64 (okey64 x + 1) else ofOkey64 (okey64 x - 1)

/-- The non-NaN binary32 value with the given comparison key. -/
def ofOkey32 (k : ℤ) : F32 :=
  if 0 ≤ k then F32.mk' k.toNat else F32.mk' (2 ^ 31 + (-k).toNat)

/-- `std::nextafter` on binary32. -/
def nextafter32 (x y : F32) : F32 :=
  if isNan32 x || isNan32 y then qnan32
  else if feq32 x y then y
  else if okey32 x < okey32 y then ofOkey32 (okey32 x + 1) else ofOkey32 (okey32 x - 1)

/-- `step` of the source at width double: advance `start` by `steps`
next-representable values toward `direction`. -/
def step64 (start direction : F64) : ℕ → F64
  | 0 => start
  | n + 1 => step64 (nextafter64 start direction) direction n

/-- `step` of the source at width float. -/
def step32 (start direction : F32) : ℕ → F32
  | 0 => start
  | n + 1 => step32 (nextafter32 start direction) direction n

/-- One binary-descent step for the integer base-10 logarithm. -/
def log10Acc (p : ℕ × ℕ) (k : ℕ) : ℕ × ℕ :=
  if 10 ^ k ≤ p.2 then (p.1 + k, p.2 / 10 ^ k) else p

/-- Floor of the base-10 logarithm of a positive natural number below
`10 ^ 4096`, by binary descent. -/
def natFloorLog10 (n : ℕ) : ℕ :=
  (log10Acc (log10Acc (log10Acc (log10Acc (log10Acc (log10Acc (log10Acc (log10Acc
    (log10Acc (log10Acc (log10Acc (log10Acc (0, n) 2048) 1024) 512) 256) 128) 64)
    32) 16) 8) 4) 2) 1).1

/-- The magnitude value of a finite binary64 magnitude bit pattern, scaled
by `2 ^ 1074` (so `kv64 (mag64 x)` is `|x| * 2 ^ 1074` for finite `x`). -/
def kv64 (m : ℕ) : ℕ :=
  if m < 2 ^ 52 then m else (2 ^ 52 + m % 2 ^ 52) * 2 ^ (m / 2 ^ 52 - 1)

/-- The magnitude value of a finite binary32 magnitude bit pattern, scaled
by `2 ^ 149`. -/
def kv32 (m : ℕ) : ℕ :=
  if m < 2 ^ 23 then m else (2 ^ 23 + m % 2 ^ 23) * 2 ^ (m / 2 ^ 23 - 1)

/-- Decimal exponent (floor of log10) of the positive value `k / 2 ^ scl`,
computed through the integer part of the value scaled by `10 ^ 400`. -/
def decExp (k scl : ℕ) : ℤ := (natFloorLog10 (k * 10 ^ 400 / 2 ^ scl) : ℤ) - 400

/-- The rounded `digits`-digit scientific mantissa of the value
`k / 2 ^ scl` at decimal exponent `d`: round-half-even of
`(k / 2 ^ scl) / 10 ^ (d - (digits - 1))`. -/
def sciMant (k scl : ℕ) (d : ℤ) (digits : ℕ) : ℕ :=
  if 0 ≤ d - (digits - 1 : ℕ) then rheDiv k (2 ^ scl * 10 ^ (d - (digits - 1 : ℕ)).toNat)
  else rheDiv (k * 10 ^ ((digits - 1 : ℕ) - d).toNat) (2 ^ scl)

/-- The digit pair displayed by `std::scientific` with `digits` significant
decimal digits for the positive value `k / 2 ^ scl` (`k` not zero): a
mantissa `m` with `digits` digits and a decimal exponent, with the carry
when rounding reaches `10 ^ digits`.  The rendered text is
`m₁.m₂...m_digits e±dd`. -/
def sciPairPos (k scl digits : ℕ) : ℕ × ℤ :=
  let d := decExp k scl
  let m0 := sciMant k scl d digits
  if m0 = 10 ^ digits then (10 ^ (digits - 1), d + 1) else (m0, d)

/-- The full rendering data of a binary64 value under
`std::scientific << std::setprecision(16)`: sign, 17-digit mantissa and
decimal exponent for finite nonzero values; zero keeps its sign with a zero
mantissa and exponent. -/
def sciPair64 (x : F64) : ℕ × ℕ × ℤ :=
  if mag64 x = 0 then (sign64 x, 0, 0)
  else (sign64 x, (sciPairPos (kv64 (mag64 x)) 1074 17).1, (sciPairPos (kv64 (mag64 x)) 1074 17).2)

/-- The full rendering data of a binary32 value under
`std::scientific << std::setprecision(8)`: sign, 9-digit mantissa and
decimal exponent. -/
def sciPair32 (x : F32) : ℕ × ℕ × ℤ :=
  if mag32 x = 0 then (sign32 x, 0, 0)
  else (sign32 x, (sciPairPos (kv32 (mag32 x)) 149 9).1, (sciPairPos (kv32 (mag32 x)) 149 9).2)

/-- The last `count` decimal digits of `m`, most significant first. -/
def digitsFixed : ℕ → ℕ → String
  | 0, _ => ""
  | c + 1, m => digitsFixed c (m / 10) ++ String.singleton (Char.ofNat (48 + m % 10))

/-- Render the exponent field of C++ scientific notation: a sign and at
least two digits. -/
def expField (d : ℤ) : String :=
  (if d < 0 then "-" else "+") ++
    (if d.natAbs < 10 then digitsFixed 2 d.natAbs
     else if d.natAbs < 100 then digitsFixed 2 d.natAbs else digitsFixed 3 d.natAbs)

/-- Assemble the C++ scientific rendering from sign, mantissa digits and
decimal exponent; `digits` is the total number of significant digits. -/
def sciString (sg m : ℕ) (d : ℤ) (digits : ℕ) : String :=
  (if sg = 1 then "-" else "") ++ digitsFixed 1 (m / 10 ^ (digits - 1)) ++ "." ++
    digitsFixed (digits - 1) (m % 10 ^ (digits - 1)) ++ "e" ++ expField d

/-- The model of `write(out, num)` for a double: `operator<<` under
`std::scientific << std::setprecision(16)`. -/
def fmt64 (x : F64) : String :=
  if isNan64 x then (if sign64 x = 1 then "-nan" else "nan")
  else if isInf64 x then (if sign64 x = 1 then "-inf" else "inf")
  else sciString (sign64 x) (sciPair64 x).2.1 (sciPair64 x).2.2 17

/-- The model of `write(out, num)` for a float (precision 8). -/
def fmt32 (x : F32) : String :=
  if isNan32 x then (if sign32 x = 1 then "-nan" else "nan")
  else if isInf32 x then (if sign32 x = 1 then "-inf" else "inf")
  else sciString (sign32 x) (sciPair32 x).2.1 (sciPair32 x).2.2 9

/-- `WithinUlpsMatcher::describe` of the source: the tolerance text with the
interval obtained by stepping `ulps` representable values from the target
toward minus and plus infinity (at the width selected by the kind, the
`Float` case narrowing the target first and appending `f`). -/
def describeUlps (m : WithinUlpsMatcher) : String :=
  "is within " ++ Nat.repr m.ulps ++ " ULPs of " ++
    (match m.kind with
     | FloatingPointKind.Float => fmt32 (f64toF32 m.target) ++ "f"
     | FloatingPointKind.Double => fmt64 m.target) ++
    " ([" ++
    (match m.kind with
     | FloatingPointKind.Float => fmt32 (step32 (f64toF32 m.target) negInf32 m.ulps)
     | FloatingPointKind.Double => fmt64 (step64 m.target negInf64 m.ulps)) ++
    ", " ++
    (match m.kind with
     | FloatingPointKind.Float => fmt32 (step32 (f64toF32 m.target) inf32 m.ulps)
     | FloatingPointKind.Double => fmt64 (step64 m.target inf64 m.ulps)) ++
    "])"

/-! ## Correctness of the base-10 descent -/

theorem log10Acc_spec (p : ℕ × ℕ) (k n : ℕ) (h1 : p.2 = n / 10 ^ p.1)
    (h2 : p.2 < 10 ^ (2 * k)) (h3 : 1 ≤ p.2) :
    (log10Acc p k).2 = n / 10 ^ (log10Acc p k).1 ∧
    (log10Acc p k).2 < 10 ^ k ∧ 1 ≤ (log10Acc p k).2 := by
  unfold log10Acc
  split
  next h =>
    refine ⟨?_, ?_, ?_⟩
    · show p.2 / 10 ^ k = n / 10 ^ (p.1 + k)
      rw [h1, Nat.div_div_eq_div_mul, pow_add]
    · show p.2 / 10 ^ k < 10 ^ k
      rw [Nat.div_lt_iff_lt_mul (pow_pos (by norm_num) k)]
      calc p.2 < 10 ^ (2 * k) := h2
        _ = 10 ^ k * 10 ^ k := by rw [← pow_add]; congr 1; omega
    · show 1 ≤ p.2 / 10 ^ k
      rw [Nat.one_le_div_iff (pow_pos (by norm_num) k)]
      exact h
  next h =>
    exact ⟨h1, by omega, h3⟩

theorem natFloorLog10_spec (n : ℕ) (h1 : 1 ≤ n) (h2 : n < 10 ^ 4096) :
    10 ^ natFloorLog10 n ≤ n ∧ n < 10 ^ (natFloorLog10 n + 1) := by
  have s1 := log10Acc_spec (0, n) 2048 n (by simp) (by norm_num; omega) h1
  have s2 := log10Acc_spec _ 1024 n s1.1 (by norm_num at s1 ⊢; exact s1.2.1) s1.2.2
  have s3 := log10Acc_spec _ 512 n s2.1 (by norm_num at s2 ⊢; exact s2.2.1) s2.2.2
  have s4 := log10Acc_spec _ 256 n s3.1 (by norm_num at s3 ⊢; exact s3.2.1) s3.2.2
  have s5 := log10Acc_spec _ 128 n s4.1 (by norm_num at s4 ⊢; exact s4.2.1) s4.2.2
  have s6 := log10Acc_spec _ 64 n s5.1 (by norm_num at s5 ⊢; exact s5.2.1) s5.2.2
  have s7 := log10Acc_spec _ 32 n s6.1 (by norm_num at s6 ⊢; exact s6.2.1) s6.2.2
  have s8 := log10Acc_spec _ 16 n s7.1 (by norm_num at s7 ⊢; exact s7.2.1) s7.2.2
  have s9 := log10Acc_spec _ 8 n s8.1 (by norm_num at s8 ⊢; exact s8.2.1) s8.2.2
  have s10 := log10Acc_spec _ 4 n s9.1 (by norm_num at s9 ⊢; exact s9.2.1) s9.2.2
  have s11 := log10Acc_spec _ 2 n s10.1 (by norm_num at s10 ⊢; exact s10.2.1) s10.2.2
  have s12 := log10Acc_spec _ 1 n s11.1 (by norm_num at s11 ⊢; exact s11.2.1) s11.2.2
  constructor
  · rw [← Nat.one_le_div_iff (pow_pos (by norm_num) _)]
    rw [natFloorLog10, ← s12.1]
    exact s12.2.2
  · have hlt : n / 10 ^ natFloorLog10 n < 10 := by
      rw [natFloorLog10, ← s12.1]
      exact by norm_num at s12 ⊢; exact s12.2.1
    rw [Nat.div_lt_iff_lt_mul (pow_pos (by norm_num) _)] at hlt
    calc n < 10 * 10 ^ natFloorLog10 n := hlt
      _ = 10 ^ (natFloorLog10 n + 1) := by rw [pow_succ]; ring

/-! ## Valuation facts: the scaled magnitude value is monotone with gaps
bounded relative to the value itself -/

theorem kv64_pos (m : ℕ) (h : 1 ≤ m) : 1 ≤ kv64 m := by
  unfold kv64
  split
  · omega
  · exact Nat.one_le_iff_ne_zero.2 (Nat.mul_ne_zero (by omega) (Nat.pos_iff_ne_zero.1
      (pow_pos (by norm_num) _)))

theorem kv64_mono (m1 m2 : ℕ) (h : m1 < m2) : kv64 m1 < kv64 m2 := by
  unfold kv64
  by_cases c1 : m1 < 2 ^ 52
  · by_cases c2 : m2 < 2 ^ 52
    · rw [if_pos c1, if_pos c2]
      omega
    · rw [if_pos c1, if_neg c2]
      calc m1 < 2 ^ 52 := c1
        _ ≤ (2 ^ 52 + m2 % 2 ^ 52) * 1 := by omega
        _ ≤ (2 ^ 52 + m2 % 2 ^ 52) * 2 ^ (m2 / 2 ^ 52 - 1) :=
            Nat.mul_le_mul_left _ (Nat.one_le_two_pow)
  · have c2 : ¬ m2 < 2 ^ 52 := by omega
    rw [if_neg c1, if_neg c2]
    have hE : m1 / 2 ^ 52 ≤ m2 / 2 ^ 52 := Nat.div_le_div_right (by omega)
    by_cases hEe : m1 / 2 ^ 52 = m2 / 2 ^ 52
    · have hf : m1 % 2 ^ 52 < m2 % 2 ^ 52 := by
        have d1 := Nat.div_add_mod m1 (2 ^ 52)
        have d2 := Nat.div_add_mod m2 (2 ^ 52)
        omega
      rw [hEe]
      exact (Nat.mul_lt_mul_right (pow_pos (by norm_num) _)).2 (by omega)
    · have hElt : m1 / 2 ^ 52 < m2 / 2 ^ 52 := by omega
      have hE1 : 1 ≤ m1 / 2 ^ 52 := by
        rw [Nat.one_le_div_iff (by norm_num)]
        omega
      have hub : (2 ^ 52 + m1 % 2 ^ 52) * 2 ^ (m1 / 2 ^ 52 - 1)
          < 2 ^ 53 * 2 ^ (m1 / 2 ^ 52 - 1) := by
        refine (Nat.mul_lt_mul_right (pow_pos (by norm_num) _)).2 ?_
        have := Nat.mod_lt m1 (y := 2 ^ 52) (by norm_num)
        omega
      have heq1 : (2 : ℕ) ^ 53 * 2 ^ (m1 / 2 ^ 52 - 1) = 2 ^ (52 + m1 / 2 ^ 52) := by
        rw [← pow_add]
        congr 1
        omega
      have heq2 : (2 : ℕ) ^ (52 + m1 / 2 ^ 52) ≤ 2 ^ (51 + m2 / 2 ^ 52) :=
        Nat.pow_le_pow_right (by norm_num) (by omega)
      have heq3 : (2 : ℕ) ^ (51 + m2 / 2 ^ 52) = 2 ^ 52 * 2 ^ (m2 / 2 ^ 52 - 1) := by
        rw [← pow_add]
        congr 1
        omega
      have hlb : (2 : ℕ) ^ 52 * 2 ^ (m2 / 2 ^ 52 - 1)
          ≤ (2 ^ 52 + m2 % 2 ^ 52) * 2 ^ (m2 / 2 ^ 52 - 1) :=
        Nat.mul_le_mul_right _ (by omega)
      omega

theorem kv64_gap (m : ℕ) : kv64 m < 2 ^ 53 * (kv64 (m + 1) - kv64 m) := by
  unfold kv64
  by_cases c1 : m < 2 ^ 52
  · by_cases c2 : m + 1 < 2 ^ 52
    · rw [if_pos c1, if_pos c2]
      omega
    · have hm : m + 1 = 2 ^ 52 := by omega
      rw [if_pos c1, if_neg c2, hm]
      norm_num
      omega
  · have c2 : ¬ m + 1 < 2 ^ 52 := by omega
    rw [if_neg c1, if_neg c2]
    have hE1 : 1 ≤ m / 2 ^ 52 := by
      rw [Nat.one_le_div_iff (by norm_num)]
      omega
    by_cases hf : m % 2 ^ 52 < 2 ^ 52 - 1
    · have hd1 : (m + 1) / 2 ^ 52 = m / 2 ^ 52 := by omega
      have hd2 : (m + 1) % 2 ^ 52 = m % 2 ^ 52 + 1 := by omega
      rw [hd1, hd2]
      have hdiff : (2 ^ 52 + (m % 2 ^ 52 + 1)) * 2 ^ (m / 2 ^ 52 - 1)
          - (2 ^ 52 + m % 2 ^ 52) * 2 ^ (m / 2 ^ 52 - 1) = 2 ^ (m / 2 ^ 52 - 1) := by
        rw [← Nat.sub_mul]
        have hone : 2 ^ 52 + (m % 2 ^ 52 + 1) - (2 ^ 52 + m % 2 ^ 52) = 1 := by omega
        rw [hone, one_mul]
      rw [hdiff]
      refine (Nat.mul_lt_mul_right (pow_pos (by norm_num) _)).2 ?_
      have := Nat.mod_lt m (y := 2 ^ 52) (by norm_num)
      omega
    · have hfe : m % 2 ^ 52 = 2 ^ 52 - 1 := by
        have := Nat.mod_lt m (y := 2 ^ 52) (by norm_num)
        omega
      have hd1 : (m + 1) / 2 ^ 52 = m / 2 ^ 52 + 1 := by omega
      have hd2 : (m + 1) % 2 ^ 52 = 0 := by omega
      rw [hd1, hd2, hfe]
      have he1 : (2 ^ 52 + 0) * 2 ^ (m / 2 ^ 52 + 1 - 1) = 2 ^ 53 * 2 ^ (m / 2 ^ 52 - 1) := by
        have e1 : m / 2 ^ 52 + 1 - 1 = m / 2 ^ 52 := by omega
        have e2 : (2 : ℕ) ^ 52 + 0 = 2 ^ 52 := by omega
        rw [e1, e2, ← pow_add, ← pow_add]
        congr 1
        omega
      have he2 : (2 ^ 52 + (2 ^ 52 - 1)) * 2 ^ (m / 2 ^ 52 - 1)
          = (2 ^ 53 - 1) * 2 ^ (m / 2 ^ 52 - 1) := by
        norm_num
      rw [he1, he2]
      have he3 : (2 : ℕ) ^ 53 * 2 ^ (m / 2 ^ 52 - 1) - (2 ^ 53 - 1) * 2 ^ (m / 2 ^ 52 - 1)
          = 2 ^ (m / 2 ^ 52 - 1) := by
        rw [← Nat.sub_mul]
        have hone : (2 : ℕ) ^ 53 - (2 ^ 53 - 1) = 1 := by omega
        rw [hone, one_mul]
      rw [he3]
      refine (Nat.mul_lt_mul_right (pow_pos (by norm_num) _)).2 ?_
      omega

/-! ## The decimal mantissa is within half a unit of the exact value -/

theorem rheDiv_err (N D : ℕ) (hD : 0 < D) :
    |((rheDiv N D : ℚ)) - (N : ℚ) / D| ≤ 1 / 2 := by
  have hq := Nat.div_add_mod N D
  have hr := Nat.mod_lt N hD
  have hDq : (0 : ℚ) < (D : ℚ) := by exact_mod_cast hD
  have hcast : ((D : ℚ)) * ((N / D : ℕ) : ℚ) + ((N % D : ℕ) : ℚ) = (N : ℚ) := by
    exact_mod_cast hq
  have hNq : (N : ℚ) / D = (N / D : ℕ) + ((N % D : ℕ) : ℚ) / D := by
    field_simp
    linarith [hcast]
  have hrq : ((N % D : ℕ) : ℚ) < D := by exact_mod_cast hr
  have hr0 : (0 : ℚ) ≤ ((N % D : ℕ) : ℚ) := by positivity
  unfold rheDiv
  split_ifs with h1 h2 h3
  · have h1q : 2 * ((N % D : ℕ) : ℚ) < D := by exact_mod_cast h1
    have hhalf : ((N % D : ℕ) : ℚ) / D ≤ 1 / 2 := by
      rw [div_le_iff₀ hDq]
      linarith
    have hpos : (0 : ℚ) ≤ ((N % D : ℕ) : ℚ) / D := by positivity
    rw [hNq, abs_le]
    constructor
    · linarith
    · linarith
  · have h2q : (D : ℚ) < 2 * ((N % D : ℕ) : ℚ) := by exact_mod_cast h2
    rw [hNq, abs_le]
    push_cast
    constructor
    · have : ((N % D : ℕ) : ℚ) / D ≤ 1 := by
        rw [div_le_one hDq]
        linarith
      linarith
    · have : 1 / 2 ≤ ((N % D : ℕ) : ℚ) / D := by
        rw [le_div_iff₀ hDq]
        linarith
      linarith
  · have h3q : 2 * ((N % D : ℕ) : ℚ) = D := by
      have : 2 * (N % D) = D := by omega
      exact_mod_cast this
    rw [hNq, abs_le]
    have : ((N % D : ℕ) : ℚ) / D = 1 / 2 := by
      rw [div_eq_iff (ne_of_gt hDq)]
      linarith
    constructor <;> linarith
  · have h3q : 2 * ((N % D : ℕ) : ℚ) = D := by
      have : 2 * (N % D) = D := by omega
      exact_mod_cast this
    rw [hNq, abs_le]
    push_cast
    have : ((N % D : ℕ) : ℚ) / D = 1 / 2 := by
      rw [div_eq_iff (ne_of_gt hDq)]
      linarith
    constructor <;> linarith

/-! ## decExp brackets the value between consecutive powers of ten -/

theorem decExp_spec (k scl : ℕ) (hk : 1 ≤ k)
    (hscl : (2 : ℕ) ^ scl ≤ 10 ^ 400) (hub : k * 10 ^ 400 < 10 ^ 4096 * 2 ^ scl) :
    (10 : ℚ) ^ (decExp k scl) ≤ (k : ℚ) / 2 ^ scl ∧
    (k : ℚ) / 2 ^ scl < (10 : ℚ) ^ (decExp k scl + 1) := by
  have hp2 : (0 : ℕ) < 2 ^ scl := pow_pos (by norm_num) scl
  have hT1 : 1 ≤ k * 10 ^ 400 / 2 ^ scl := by
    rw [Nat.one_le_div_iff hp2]
    calc (2 : ℕ) ^ scl ≤ 10 ^ 400 := hscl
      _ ≤ k * 10 ^ 400 := Nat.le_mul_of_pos_left _ (by omega)
  have hT2 : k * 10 ^ 400 / 2 ^ scl < 10 ^ 4096 :=
    (Nat.div_lt_iff_lt_mul hp2).2 (by calc k * 10 ^ 400 < 10 ^ 4096 * 2 ^ scl := hub
      _ = 10 ^ 4096 * 2 ^ scl := rfl)
  have hF := natFloorLog10_spec _ hT1 hT2
  have hq := Nat.div_add_mod (k * 10 ^ 400) (2 ^ scl)
  have hr := Nat.mod_lt (k * 10 ^ 400) hp2
  -- Nat-level bracketing of k * 10 ^ 400 between powers of ten times 2 ^ scl
  have key1 : 10 ^ natFloorLog10 (k * 10 ^ 400 / 2 ^ scl) * 2 ^ scl ≤ k * 10 ^ 400 := by
    calc 10 ^ natFloorLog10 (k * 10 ^ 400 / 2 ^ scl) * 2 ^ scl
        ≤ (k * 10 ^ 400 / 2 ^ scl) * 2 ^ scl := Nat.mul_le_mul_right _ hF.1
      _ ≤ k * 10 ^ 400 := Nat.div_mul_le_self _ _
  have key2 : k * 10 ^ 400 < 10 ^ (natFloorLog10 (k * 10 ^ 400 / 2 ^ scl) + 1) * 2 ^ scl := by
    have hstep : k * 10 ^ 400 < (k * 10 ^ 400 / 2 ^ scl + 1) * 2 ^ scl := by
      rw [Nat.add_mul, one_mul, Nat.mul_comm (k * 10 ^ 400 / 2 ^ scl) (2 ^ scl)]
      omega
    calc k * 10 ^ 400 < (k * 10 ^ 400 / 2 ^ scl + 1) * 2 ^ scl := hstep
      _ ≤ 10 ^ (natFloorLog10 (k * 10 ^ 400 / 2 ^ scl) + 1) * 2 ^ scl :=
          Nat.mul_le_mul_right _ (by omega)
  -- move to ℚ
  have hp2q : (0 : ℚ) < (2 : ℚ) ^ scl := by positivity
  have h10q : (0 : ℚ) < (10 : ℚ) ^ (400 : ℕ) := by positivity
  have hzpow : (10 : ℚ) ^ (decExp k scl) =
      ((10 : ℚ) ^ natFloorLog10 (k * 10 ^ 400 / 2 ^ scl)) / 10 ^ (400 : ℕ) := by
    rw [decExp, zpow_sub₀ (by norm_num : (10 : ℚ) ≠ 0)]
    norm_num
  have hzpow2 : (10 : ℚ) ^ (decExp k scl + 1) =
      ((10 : ℚ) ^ (natFloorLog10 (k * 10 ^ 400 / 2 ^ scl) + 1)) / 10 ^ (400 : ℕ) := by
    rw [zpow_add_one₀ (by norm_num : (10 : ℚ) ≠ 0), hzpow, pow_succ]
    ring
  constructor
  · rw [hzpow, div_le_div_iff₀ h10q hp2q]
    have := key1
    have hcast : ((10 : ℚ) ^ natFloorLog10 (k * 10 ^ 400 / 2 ^ scl)) * 2 ^ scl
        ≤ (k : ℚ) * 10 ^ (400 : ℕ) := by exact_mod_cast key1
    linarith
  · rw [hzpow2, div_lt_div_iff₀ hp2q h10q]
    have hcast : (k : ℚ) * 10 ^ (400 : ℕ)
        < ((10 : ℚ) ^ (natFloorLog10 (k * 10 ^ 400 / 2 ^ scl) + 1)) * 2 ^ scl := by
      exact_mod_cast key2
    linarith
